import Mathlib

/-!
The httplog service: the log store and its HTTP handlers.

A shallow embedding of `internal/db` (types.go, client.go) and `internal/api`
(handlers.go), followed by theorems about the store contract and the
status mapping of the four endpoints.

The relational backend is modelled by the SQL text found in client.go:
the table created by `runSchemaMigration`, the `INSERT ... ON CONFLICT (id)
DO NOTHING` statement and the two `SELECT ... WHERE col = $1 ORDER BY
time_in DESC` queries. Whatever the backend may do beyond that text
(a lost connection, a cancelled context) enters each operation as an
explicit argument.
-/

namespace db

/-- Go error values, as far as this package builds and inspects them:
the sentinel `ErrNotFound`, an error produced outside the package (driver,
backend) and `fmt.Errorf("msg: %w", inner)`. -/
inductive GoError where
  | ErrNotFound : GoError
  | other (msg : String) : GoError
  | wrap (msg : String) (inner : GoError) : GoError
  deriving DecidableEq, Repr

/-- The method `Error()`: the sentinel is `errors.New("not found")`, and `%w`
prints the wrapped error after the message. -/
def GoError.Error : GoError → String
  | .ErrNotFound => "not found"
  | .other msg => msg
  | .wrap msg inner => msg ++ ": " ++ inner.Error

/-- The call `errors.Is(err, db.ErrNotFound)`: walks the chain of wrapped
errors looking for the sentinel. -/
def GoError.isNotFound : GoError → Bool
  | .ErrNotFound => true
  | .other _ => false
  | .wrap _ inner => inner.isNotFound

/-- The struct `HttpLogRequest` of types.go. A `time.Time` is an instant with
nanosecond resolution: the number of nanoseconds since the zero
`time.Time`. A Go `int` is an integer. -/
structure HttpLogRequest where
  ID : String
  URL : String
  Method : String
  TimeIn : Int
  TimeOut : Int
  Duration : Int
  ReturnCode : Int
  Username : String
  Userole : String
  OrgID : String
  UserAgent : String
  ErrorMsg : String
  deriving DecidableEq, Repr

/-- One row of table `httplog` as declared in `runSchemaMigration`: every
column is `NOT NULL` except `error_msg`, which may hold NULL (`none`). A
`TIMESTAMPTZ` column has microsecond resolution: `time_in` and `time_out`
are numbers of microseconds since the zero `time.Time`. -/
structure Row where
  id : String
  url : String
  method : String
  time_in : Int
  time_out : Int
  duration : Int
  return_code : Int
  username : String
  userole : String
  org_id : String
  user_agent : String
  error_msg : Option String
  deriving DecidableEq, Repr

/-- The contents of table `httplog`, in heap order (oldest row first). -/
abbrev Table := List Row

/-- The constraint `id TEXT PRIMARY KEY`: no two rows share an id. -/
def PrimaryKey (t : Table) : Prop := (t.map (·.id)).Nodup

instance (t : Table) : Decidable (PrimaryKey t) := by
  unfold PrimaryKey; infer_instance

/-- Columns `duration` and `return_code` are `INT`, a 32-bit integer, while
the Go fields are `int`: the backend rejects a value outside this range. -/
def fitsInt4 (n : Int) : Bool := decide (-2147483648 ≤ n) && decide (n ≤ 2147483647)

/-- A record whose values the column types of `httplog` accept. -/
def validRecord (r : HttpLogRequest) : Prop :=
  fitsInt4 r.Duration = true ∧ fitsInt4 r.ReturnCode = true

instance (r : HttpLogRequest) : Decidable (validRecord r) := by
  unfold validRecord; infer_instance

/-- A `time.Time` bound to a `TIMESTAMPTZ` column: the nanoseconds are
rounded to the nearest microsecond (a half goes up here), so digits below
the microsecond are lost. -/
def toMicros (nanos : Int) : Int := (nanos + 500) / 1000

/-- A `TIMESTAMPTZ` value scanned into a `time.Time`. -/
def fromMicros (micros : Int) : Int := 1000 * micros

/-- A record whose `TimeIn` and `TimeOut` carry no digits below the
microsecond. -/
def wholeMicros (r : HttpLogRequest) : Prop := r.TimeIn % 1000 = 0 ∧ r.TimeOut % 1000 = 0

instance (r : HttpLogRequest) : Decidable (wholeMicros r) := by
  unfold wholeMicros; infer_instance

/-- The twelve values bound to `$1 .. $12` of the INSERT statement, as the
row they make. A Go string is never NULL, so `error_msg` is `some`. The
two times are stored at the resolution of their column. -/
def toRow (r : HttpLogRequest) : Row :=
  { id := r.ID, url := r.URL, method := r.Method, time_in := toMicros r.TimeIn,
    time_out := toMicros r.TimeOut, duration := r.Duration, return_code := r.ReturnCode,
    username := r.Username, userole := r.Userole, org_id := r.OrgID,
    user_agent := r.UserAgent, error_msg := some r.ErrorMsg }

/-- The call `c.db.ExecContext(ctx, requestInsert, ...)`. `fault` is the
error, if any, that the backend raises for a reason outside the SQL text (a
lost connection, a cancelled context, a string the server encoding
refuses); the statement then has no effect. Otherwise the values are
checked against the column types, and `ON CONFLICT (id) DO NOTHING` skips
the insert when a row with this id exists; a new row goes to the end of the
heap. -/
def execInsert (fault : Option String) (t : Table) (r : HttpLogRequest) :
    Except GoError Table :=
  match fault with
  | some msg => .error (.other msg)
  | none =>
    if fitsInt4 r.Duration && fitsInt4 r.ReturnCode then
      if t.any (fun row => row.id == r.ID) then .ok t else .ok (t ++ [toRow r])
    else .error (.other "pq: value out of range for type integer")

/-- Method `PostgresClient.InsertHttpLogRequest`: the returned error (`none` is
nil) and the table after the call. -/
def InsertHttpLogRequest (fault : Option String) (t : Table) (r : HttpLogRequest) :
    Option GoError × Table :=
  match execInsert fault t r with
  | .error err => (some (.wrap "failed to insert http log request" err), t)
  | .ok t1 => (none, t1)

/-- Method `PostgresClient.BulkInsertHttpLogRequest`: the loop over `requests`,
returning at the first insert that fails. `faults i` is the fault met by
the statement of the record at position `i`. -/
def BulkInsertHttpLogRequest (faults : Nat → Option String) (t : Table) :
    List HttpLogRequest → Option GoError × Table
  | [] => (none, t)
  | r :: rest =>
    match InsertHttpLogRequest (faults 0) t r with
    | (some err, t1) => (some err, t1)
    | (none, t1) => BulkInsertHttpLogRequest (fun i => faults (i + 1)) t1 rest

/-- What the backend does with a SELECT beyond evaluating it: nothing,
`QueryContext` fails, or the row stream breaks after `delivered` rows so
that `rows.Next()` stops and `rows.Err()` is not nil. -/
inductive QueryFault where
  | none : QueryFault
  | query (msg : String) : QueryFault
  | iter (delivered : Nat) (msg : String) : QueryFault
  deriving DecidableEq, Repr

/-- The clause `ORDER BY time_in DESC`. Rows with equal `time_in` keep heap
order here; SQL leaves their order open. -/
def orderByTimeInDesc (rows : List Row) : List Row :=
  rows.insertionSort (fun a b => b.time_in ≤ a.time_in)

/-- The query of `GetHttpLogRequestsByUrl`: rows `WHERE url = $1`, ordered. -/
def selectByUrl (t : Table) (url : String) : List Row :=
  orderByTimeInDesc (t.filter (fun row => row.url == url))

/-- The query of `GetHttpLogRequestsByUsername`: rows `WHERE username = $1`,
ordered. -/
def selectByUsername (t : Table) (username : String) : List Row :=
  orderByTimeInDesc (t.filter (fun row => row.username == username))

/-- The call `rows.Scan(&r.ID, ..., &r.ErrorMsg)` on one row: every
destination is a Go string, int or time, so a NULL `error_msg` cannot be
stored and Scan fails. -/
def scanRow (row : Row) : Except GoError HttpLogRequest :=
  match row.error_msg with
  | none => .error (.other "sql: Scan error on column index 11, name \x22error_msg\x22: converting NULL to string is unsupported")
  | some msg =>
    .ok { ID := row.id, URL := row.url, Method := row.method,
          TimeIn := fromMicros row.time_in, TimeOut := fromMicros row.time_out,
          Duration := row.duration,
          ReturnCode := row.return_code, Username := row.username,
          Userole := row.userole, OrgID := row.org_id, UserAgent := row.user_agent,
          ErrorMsg := msg }

/-- The loop `for rows.Next()` with its `rows.Scan` and `append`, run
over the rows delivered: stops at the first row that fails to scan. -/
def scanRows : List Row → Except GoError (List HttpLogRequest)
  | [] => .ok []
  | row :: rest =>
    match scanRow row with
    | .error err => .error err
    | .ok r =>
      match scanRows rest with
      | .error err => .error err
      | .ok rs => .ok (r :: rs)

/-- The body shared by the two Get methods, from `QueryContext` on: `matched`
is the result set of the query and `what` the column named in the first
error message. Returns the pair `(requests, err)`; a nil slice is `[]`. -/
def getRequests (what : String) (fault : QueryFault) (matched : List Row) :
    List HttpLogRequest × Option GoError :=
  match fault with
  | .query msg =>
    ([], some (.wrap ("failed to query http log requests by " ++ what) (.other msg)))
  | .iter delivered msg =>
    match scanRows (matched.take delivered) with
    | .error err => ([], some (.wrap "failed to scan http log request" err))
    | .ok _ => ([], some (.wrap "row iteration error" (.other msg)))
  | .none =>
    match scanRows matched with
    | .error err => ([], some (.wrap "failed to scan http log request" err))
    | .ok requests =>
      if requests.length = 0 then ([], some .ErrNotFound) else (requests, none)

/-- Method `PostgresClient.GetHttpLogRequestsByUrl`. -/
def GetHttpLogRequestsByUrl (fault : QueryFault) (t : Table) (url : String) :
    List HttpLogRequest × Option GoError :=
  getRequests "url" fault (selectByUrl t url)

/-- Method `PostgresClient.GetHttpLogRequestsByUsername`. -/
def GetHttpLogRequestsByUsername (fault : QueryFault) (t : Table) (username : String) :
    List HttpLogRequest × Option GoError :=
  getRequests "username" fault (selectByUsername t username)

/-- The four store operations of `PostgresClient`, each with its arguments
and with what the backend does during the call. -/
inductive StoreOp where
  | insert (fault : Option String) (r : HttpLogRequest) : StoreOp
  | bulkInsert (faults : Nat → Option String) (rs : List HttpLogRequest) : StoreOp
  | getByUrl (fault : QueryFault) (url : String) : StoreOp
  | getByUsername (fault : QueryFault) (username : String) : StoreOp

/-- The table after a store operation. The two Get methods only run a
SELECT, which writes nothing. -/
def StoreOp.tableAfter (t : Table) : StoreOp → Table
  | .insert fault r => (InsertHttpLogRequest fault t r).2
  | .bulkInsert faults rs => (BulkInsertHttpLogRequest faults t rs).2
  | .getByUrl _ _ => t
  | .getByUsername _ _ => t

/-- Whether the operation is one of the two Get methods. -/
def StoreOp.isGet : StoreOp → Bool
  | .getByUrl _ _ => true
  | .getByUsername _ _ => true
  | _ => false

/-- The words of the specification for a bulk insert, "applies Insert to
each record in the input sequence, in order": the table after Insert has
been applied to every record of `rs` in turn, whatever each call returns. -/
def foldInsert (faults : Nat → Option String) (t : Table) : List HttpLogRequest → Table
  | [] => t
  | r :: rest =>
    foldInsert (fun i => faults (i + 1)) (InsertHttpLogRequest (faults 0) t r).2 rest

/-- The error returned by the insert of the record at position `k`, when it
is applied after Insert has been applied to the `k` records before it;
`none` also when `rs` has no position `k`. -/
def nthInsertError (faults : Nat → Option String) (t : Table) (rs : List HttpLogRequest)
    (k : Nat) : Option GoError :=
  match rs[k]? with
  | none => none
  | some r => (InsertHttpLogRequest (faults k) (foldInsert faults t (rs.take k)) r).1

/-- A record the column types reject: its `Duration` does not fit `INT`. -/
def sampleBad : HttpLogRequest :=
  { ID := "c", URL := "/a", Method := "GET", TimeIn := 9000, TimeOut := 10000,
    Duration := 4294967296, ReturnCode := 200, Username := "bob", Userole := "admin",
    OrgID := "org", UserAgent := "curl", ErrorMsg := "" }

/-- A record with the id of `sampleA` and every other field different. -/
def sampleConflict : HttpLogRequest :=
  { ID := "a", URL := "/new", Method := "POST", TimeIn := 20000, TimeOut := 21000,
    Duration := 2, ReturnCode := 201, Username := "eve", Userole := "user",
    OrgID := "org2", UserAgent := "browser", ErrorMsg := "x" }

/-- A row the schema admits and the INSERT of this program never writes:
its `error_msg` is NULL. -/
def sampleNullRow : Row :=
  { id := "n", url := "/a", method := "GET", time_in := 1, time_out := 2, duration := 1,
    return_code := 200, username := "bob", userole := "admin", org_id := "org",
    user_agent := "curl", error_msg := none }

/-- A record whose `TimeIn` has a digit below the microsecond. -/
def sampleNanos : HttpLogRequest :=
  { ID := "d", URL := "/a", Method := "GET", TimeIn := 5001, TimeOut := 6000,
    Duration := 1, ReturnCode := 200, Username := "bob", Userole := "admin",
    OrgID := "org", UserAgent := "curl", ErrorMsg := "" }

/-- A sample record: a GET of `/a` by `bob`, 5 microseconds after the zero
time. -/
def sampleA : HttpLogRequest :=
  { ID := "a", URL := "/a", Method := "GET", TimeIn := 5000, TimeOut := 6000, Duration := 1,
    ReturnCode := 200, Username := "bob", Userole := "admin", OrgID := "org",
    UserAgent := "curl", ErrorMsg := "" }

/-- A second sample record: the same url and user as `sampleA`, a later
`TimeIn` and another id. -/
def sampleB : HttpLogRequest :=
  { ID := "b", URL := "/a", Method := "GET", TimeIn := 7000, TimeOut := 8000, Duration := 1,
    ReturnCode := 200, Username := "bob", Userole := "admin", OrgID := "org",
    UserAgent := "curl", ErrorMsg := "" }

end db

namespace api

open db

/-- A JSON value as `encoding/json` reads it. A number literal is either an
integer literal (`int`) or one with a fraction or an exponent (`frac`, kept
as text). -/
inductive JVal where
  | null : JVal
  | bool (b : Bool) : JVal
  | int (n : Int) : JVal
  | frac (lit : String) : JVal
  | str (s : String) : JVal
  | arr (items : List JVal) : JVal
  | obj (members : List (String × JVal)) : JVal

/-- The parts of the Go standard library the handlers call and whose
result depends on text formats: reading the next JSON value of a request
body (`json.NewDecoder(r.Body)`; an error message on a syntax error or an
empty body), parsing the content of a JSON string as a `time.Time`
(`Time.UnmarshalJSON`, RFC 3339), the case-insensitive match of an object
key with a field name, and the bytes `json.NewEncoder(w).Encode(requests)`
writes. -/
structure JsonLib where
  readValue : String → Except String JVal
  parseTime : String → Option Int
  equalFold : String → String → Bool
  encode : List HttpLogRequest → String

/-- The fields of `db.HttpLogRequest`. -/
inductive Field where
  | ID | URL | Method | TimeIn | TimeOut | Duration | ReturnCode
  | Username | Userole | OrgID | UserAgent | ErrorMsg
  deriving DecidableEq, Repr

/-- The `json:"..."` tag of each field in types.go. -/
def Field.tag : Field → String
  | .ID => "id"
  | .URL => "url"
  | .Method => "method"
  | .TimeIn => "time_in"
  | .TimeOut => "time_out"
  | .Duration => "duration"
  | .ReturnCode => "return_code"
  | .Username => "username"
  | .Userole => "userole"
  | .OrgID => "org_id"
  | .UserAgent => "user_agent"
  | .ErrorMsg => "error_msg"

/-- All fields, in declaration order. -/
def Field.all : List Field :=
  [.ID, .URL, .Method, .TimeIn, .TimeOut, .Duration, .ReturnCode,
   .Username, .Userole, .OrgID, .UserAgent, .ErrorMsg]

/-- A value held by a field: a Go string, int or `time.Time`. -/
inductive GoValue where
  | str (s : String) : GoValue
  | int (n : Int) : GoValue
  | time (t : Int) : GoValue
  deriving DecidableEq, Repr

/-- Reading a field of the struct. -/
def get (r : HttpLogRequest) : Field → GoValue
  | .ID => .str r.ID
  | .URL => .str r.URL
  | .Method => .str r.Method
  | .TimeIn => .time r.TimeIn
  | .TimeOut => .time r.TimeOut
  | .Duration => .int r.Duration
  | .ReturnCode => .int r.ReturnCode
  | .Username => .str r.Username
  | .Userole => .str r.Userole
  | .OrgID => .str r.OrgID
  | .UserAgent => .str r.UserAgent
  | .ErrorMsg => .str r.ErrorMsg

/-- The value of `var request db.HttpLogRequest`: every string empty, every
int 0, every time the zero `time.Time`. -/
def zeroRequest : HttpLogRequest :=
  { ID := "", URL := "", Method := "", TimeIn := 0, TimeOut := 0, Duration := 0,
    ReturnCode := 0, Username := "", Userole := "", OrgID := "", UserAgent := "",
    ErrorMsg := "" }

/-- How `encoding/json` finds the field for an object key: an exact match
of the tag first, a case-insensitive match otherwise; a key matching no
field is skipped. -/
def lookupField (lib : JsonLib) (key : String) : Option Field :=
  match Field.all.find? (fun f => f.tag == key) with
  | some f => some f
  | none => Field.all.find? (fun f => lib.equalFold f.tag key)

/-- Decoding a JSON value into a Go string: a JSON string is stored, `null`
leaves the field as it is, anything else is a type error. -/
def decodeString (cur : String) : JVal → Except String String
  | .str s => .ok s
  | .null => .ok cur
  | _ => .error "json: cannot unmarshal value into Go struct field of type string"

/-- Decoding a JSON value into a Go int (64 bits): an integer literal in
range is stored, `null` leaves the field as it is, anything else (a
fraction, an exponent, an overflow, another kind of value) is an error. -/
def decodeInt (cur : Int) : JVal → Except String Int
  | .int n =>
    if -9223372036854775808 ≤ n ∧ n ≤ 9223372036854775807 then .ok n
    else .error "json: cannot unmarshal number into Go struct field of type int"
  | .null => .ok cur
  | _ => .error "json: cannot unmarshal value into Go struct field of type int"

/-- Decoding a JSON value into a `time.Time` (`Time.UnmarshalJSON`): `null`
leaves the field as it is, a JSON string is parsed, anything else is an
error. -/
def decodeTime (lib : JsonLib) (cur : Int) : JVal → Except String Int
  | .str s =>
    match lib.parseTime s with
    | some t => .ok t
    | none => .error "parsing time: cannot parse as RFC 3339"
  | .null => .ok cur
  | _ => .error "Time.UnmarshalJSON: input is not a JSON string"

/-- Storing a JSON value into one field of the struct. -/
def setField (lib : JsonLib) (r : HttpLogRequest) (f : Field) (v : JVal) :
    Except String HttpLogRequest :=
  match f with
  | .ID => (decodeString r.ID v).map (fun x => { r with ID := x })
  | .URL => (decodeString r.URL v).map (fun x => { r with URL := x })
  | .Method => (decodeString r.Method v).map (fun x => { r with Method := x })
  | .TimeIn => (decodeTime lib r.TimeIn v).map (fun x => { r with TimeIn := x })
  | .TimeOut => (decodeTime lib r.TimeOut v).map (fun x => { r with TimeOut := x })
  | .Duration => (decodeInt r.Duration v).map (fun x => { r with Duration := x })
  | .ReturnCode => (decodeInt r.ReturnCode v).map (fun x => { r with ReturnCode := x })
  | .Username => (decodeString r.Username v).map (fun x => { r with Username := x })
  | .Userole => (decodeString r.Userole v).map (fun x => { r with Userole := x })
  | .OrgID => (decodeString r.OrgID v).map (fun x => { r with OrgID := x })
  | .UserAgent => (decodeString r.UserAgent v).map (fun x => { r with UserAgent := x })
  | .ErrorMsg => (decodeString r.ErrorMsg v).map (fun x => { r with ErrorMsg := x })

/-- Decoding the members of a JSON object into the struct, in the order
they are written: a later member overwrites an earlier one, a member with
an unknown key is skipped, and a member that cannot be stored makes the
whole decoding fail. Fields no member names keep the value they had. -/
def decodeMembers (lib : JsonLib) :
    HttpLogRequest → List (String × JVal) → Except String HttpLogRequest
  | r, [] => .ok r
  | r, (key, v) :: rest =>
    match lookupField lib key with
    | none => decodeMembers lib r rest
    | some f =>
      match setField lib r f v with
      | .error e => .error e
      | .ok r1 => decodeMembers lib r1 rest

/-- Unmarshalling one JSON value into a zero `db.HttpLogRequest`: an object is
decoded member by member, `null` leaves the struct zero, any other value is
a type error. -/
def unmarshalRequest (lib : JsonLib) : JVal → Except String HttpLogRequest
  | .obj members => decodeMembers lib zeroRequest members
  | .null => .ok zeroRequest
  | _ => .error "json: cannot unmarshal value into Go value of type db.HttpLogRequest"

/-- Unmarshalling the elements of a JSON array, each into a zero struct. -/
def unmarshalElements (lib : JsonLib) : List JVal → Except String (List HttpLogRequest)
  | [] => .ok []
  | v :: rest =>
    match unmarshalRequest lib v with
    | .error e => .error e
    | .ok r =>
      match unmarshalElements lib rest with
      | .error e => .error e
      | .ok rs => .ok (r :: rs)

/-- Unmarshalling one JSON value into `var requests []db.HttpLogRequest`: an
array is decoded element by element, `null` leaves the slice nil, any other
value is a type error. -/
def unmarshalRequests (lib : JsonLib) : JVal → Except String (List HttpLogRequest)
  | .arr items => unmarshalElements lib items
  | .null => .ok []
  | _ => .error "json: cannot unmarshal value into Go value of type []db.HttpLogRequest"

/-- The call `json.NewDecoder(r.Body).Decode(&request)` of `InsertHttpLogRequest`. -/
def decodeRequest (lib : JsonLib) (body : String) : Except String HttpLogRequest :=
  match lib.readValue body with
  | .error e => .error e
  | .ok v => unmarshalRequest lib v

/-- The call `json.NewDecoder(r.Body).Decode(&requests)` of
`BulkInsertHttpLogRequest`. -/
def decodeRequests (lib : JsonLib) (body : String) : Except String (List HttpLogRequest) :=
  match lib.readValue body with
  | .error e => .error e
  | .ok v => unmarshalRequests lib v

/-- The interface `db.Client` as the handlers use it (`Close` apart), over a
store with states `σ`: each method returns its Go result and the state of
the store after the call. Every implementation (the Postgres client, the
mock of dbmocks) is an instance. -/
structure Client (σ : Type) where
  InsertHttpLogRequest : HttpLogRequest → σ → Option GoError × σ
  BulkInsertHttpLogRequest : List HttpLogRequest → σ → Option GoError × σ
  GetHttpLogRequestsByUrl : String → σ → (List HttpLogRequest × Option GoError) × σ
  GetHttpLogRequestsByUsername : String → σ → (List HttpLogRequest × Option GoError) × σ

/-- What a handler reads of the `*http.Request`: the pairs of `r.URL.Query()`
in the order of the query string, and the body. -/
structure Request where
  query : List (String × String)
  body : String
  deriving DecidableEq, Repr

/-- What a handler writes to the `http.ResponseWriter`: the status code, the
headers it sets and the body. -/
structure Response where
  status : Nat
  header : List (String × String)
  body : String
  deriving DecidableEq, Repr

/-- The call `r.URL.Query().Get(key)`: the first value of the key, or the
empty string when the key does not occur. -/
def queryGet (query : List (String × String)) (key : String) : String :=
  match query.find? (fun kv => kv.1 == key) with
  | some kv => kv.2
  | none => ""

/-- The call `w.Header().Get(key)` on a response. -/
def Response.headerGet (resp : Response) (key : String) : String :=
  match resp.header.find? (fun kv => kv.1 == key) with
  | some kv => kv.2
  | none => ""

/-- The call `http.Error(w, msg, code)`: a plain-text reply whose body is the
message followed by a newline. -/
def httpError (msg : String) (code : Nat) : Response :=
  { status := code,
    header := [("Content-Type", "text/plain; charset=utf-8"),
               ("X-Content-Type-Options", "nosniff")],
    body := msg ++ "\n" }

/-- The reply of `w.WriteHeader(http.StatusCreated)` with nothing written. -/
def created : Response := { status := 201, header := [], body := "" }

/-- The reply of the read handlers on success: `Content-Type` set, status
200, the encoded list as body. -/
def okJSON (lib : JsonLib) (requests : List HttpLogRequest) : Response :=
  { status := 200, header := [("Content-Type", "application/json")],
    body := lib.encode requests }

/-- The handler `api.InsertHttpLogRequest`: the reply and the store after. -/
def InsertHttpLogRequest {σ : Type} (lib : JsonLib) (dbclient : Client σ)
    (r : Request) (s : σ) : Response × σ :=
  match decodeRequest lib r.body with
  | .error e => (httpError ("internal server error: " ++ e) 400, s)
  | .ok request =>
    match dbclient.InsertHttpLogRequest request s with
    | (some err, s1) =>
      (httpError ("failed to insert http log request: " ++ err.Error) 500, s1)
    | (none, s1) => (created, s1)

/-- The handler `api.BulkInsertHttpLogRequest`. -/
def BulkInsertHttpLogRequest {σ : Type} (lib : JsonLib) (dbclient : Client σ)
    (r : Request) (s : σ) : Response × σ :=
  match decodeRequests lib r.body with
  | .error e => (httpError ("internal server error: " ++ e) 400, s)
  | .ok requests =>
    match dbclient.BulkInsertHttpLogRequest requests s with
    | (some err, s1) =>
      (httpError ("failed to insert http log requests: " ++ err.Error) 500, s1)
    | (none, s1) => (created, s1)

/-- The handler `api.GetHttpLogRequestsByUrl`. -/
def GetHttpLogRequestsByUrl {σ : Type} (lib : JsonLib) (dbclient : Client σ)
    (r : Request) (s : σ) : Response × σ :=
  let urlParam := queryGet r.query "url"
  if urlParam = "" then (httpError "missing \x27url\x27 query parameter" 400, s)
  else
    match dbclient.GetHttpLogRequestsByUrl urlParam s with
    | ((_, some err), s1) =>
      if err.isNotFound then (httpError "no logs found" 404, s1)
      else (httpError ("failed to get http log requests: " ++ err.Error) 500, s1)
    | ((requests, none), s1) => (okJSON lib requests, s1)

/-- The handler `api.GetHttpLogRequestsByUsername`. -/
def GetHttpLogRequestsByUsername {σ : Type} (lib : JsonLib) (dbclient : Client σ)
    (r : Request) (s : σ) : Response × σ :=
  let username := queryGet r.query "username"
  if username = "" then (httpError "missing \x27username\x27 query parameter" 400, s)
  else
    match dbclient.GetHttpLogRequestsByUsername username s with
    | ((_, some err), s1) =>
      if err.isNotFound then (httpError "no logs found" 404, s1)
      else (httpError ("failed to get http log requests: " ++ err.Error) 500, s1)
    | ((requests, none), s1) => (okJSON lib requests, s1)

/-- A call of a method of `db.Client`, with its arguments. -/
inductive Call where
  | insert (request : HttpLogRequest) : Call
  | bulkInsert (requests : List HttpLogRequest) : Call
  | getByUrl (url : String) : Call
  | getByUsername (username : String) : Call
  deriving DecidableEq, Repr

/-- The struct `MockClient` of dbmocks/client_mock.go: one function per
method, set by each test. -/
structure MockClient where
  InsertHttpLogRequestFn : HttpLogRequest → Option GoError
  BulkInsertHttpLogRequestFn : List HttpLogRequest → Option GoError
  GetHttpLogRequestsByUrlFn : String → List HttpLogRequest × Option GoError
  GetHttpLogRequestsByUsernameFn : String → List HttpLogRequest × Option GoError

/-- The methods of `MockClient`: each returns what its function returns. The
state kept here is the list of the calls received so far. -/
def MockClient.toClient (f : MockClient) : Client (List Call) :=
  { InsertHttpLogRequest := fun request log =>
      (f.InsertHttpLogRequestFn request, log ++ [.insert request]),
    BulkInsertHttpLogRequest := fun requests log =>
      (f.BulkInsertHttpLogRequestFn requests, log ++ [.bulkInsert requests]),
    GetHttpLogRequestsByUrl := fun url log =>
      (f.GetHttpLogRequestsByUrlFn url, log ++ [.getByUrl url]),
    GetHttpLogRequestsByUsername := fun username log =>
      (f.GetHttpLogRequestsByUsernameFn username, log ++ [.getByUsername username]) }

/-- A mock as the tests of routes_test.go set it up: the insert functions
return `insertErr` and the get functions return `getResult`, whatever the
argument. -/
def mockClient (insertErr : Option GoError)
    (getResult : List HttpLogRequest × Option GoError) : Client (List Call) :=
  MockClient.toClient
    { InsertHttpLogRequestFn := fun _ => insertErr,
      BulkInsertHttpLogRequestFn := fun _ => insertErr,
      GetHttpLogRequestsByUrlFn := fun _ => getResult,
      GetHttpLogRequestsByUsernameFn := fun _ => getResult }

/-- The Postgres client of client.go on a backend that meets no fault; its
state is the table. -/
def postgresClient : Client Table :=
  { InsertHttpLogRequest := fun request t => db.InsertHttpLogRequest none t request,
    BulkInsertHttpLogRequest := fun requests t =>
      db.BulkInsertHttpLogRequest (fun _ => none) t requests,
    GetHttpLogRequestsByUrl := fun url t => (db.GetHttpLogRequestsByUrl .none t url, t),
    GetHttpLogRequestsByUsername := fun username t =>
      (db.GetHttpLogRequestsByUsername .none t username, t) }

/-- A library instance for the worked examples. It reads three request
bodies: the empty object, the object with the one member `"id": "a"` and
the empty array; any other body is a syntax error. It parses no time,
matches keys exactly and writes the ids of the records as their encoding. -/
def exampleLib : JsonLib :=
  { readValue := fun body =>
      if body = "\x7b\x7d" then .ok (.obj [])
      else if body = "\x7b\x22id\x22: \x22a\x22\x7d" then .ok (.obj [("id", .str "a")])
      else if body = "[]" then .ok (.arr [])
      else .error "invalid character",
    parseTime := fun _ => none,
    equalFold := fun a b => a == b,
    encode := fun requests => "[" ++ ",".intercalate (requests.map (·.ID)) ++ "]\n" }

/-- A string occurs inside another. -/
def containsStr (s sub : String) : Prop := ∃ pre suf : String, s = pre ++ sub ++ suf

end api

namespace db

theorem insert_of_fault (msg : String) (t : Table) (r : HttpLogRequest) :
    InsertHttpLogRequest (some msg) t r =
      (some (.wrap "failed to insert http log request" (.other msg)), t) := rfl

theorem insert_of_valid (t : Table) (r : HttpLogRequest) (hv : validRecord r) :
    InsertHttpLogRequest none t r =
      (none, if t.any (fun row => row.id == r.ID) then t else t ++ [toRow r]) := by
  obtain ⟨h1, h2⟩ := hv
  unfold InsertHttpLogRequest execInsert
  simp only [h1, h2, Bool.and_self, if_true]
  split_ifs <;> rfl

theorem insert_of_invalid (t : Table) (r : HttpLogRequest) (hv : ¬ validRecord r) :
    InsertHttpLogRequest none t r =
      (some (.wrap "failed to insert http log request"
        (.other "pq: value out of range for type integer")), t) := by
  have h : (fitsInt4 r.Duration && fitsInt4 r.ReturnCode) = false := by
    unfold validRecord at hv
    cases h1 : fitsInt4 r.Duration <;> cases h2 : fitsInt4 r.ReturnCode <;> simp_all
  unfold InsertHttpLogRequest execInsert
  simp [h]

/-- An insert that returns no error met no fault and a valid record. -/
theorem insert_ok_inv (fault : Option String) (t : Table) (r : HttpLogRequest)
    (h : (InsertHttpLogRequest fault t r).1 = none) :
    fault = none ∧ validRecord r := by
  cases fault with
  | some msg => simp [insert_of_fault] at h
  | none =>
    refine ⟨rfl, ?_⟩
    by_contra hv
    simp [insert_of_invalid t r hv] at h

theorem insert_table_cases (fault : Option String) (t : Table) (r : HttpLogRequest) :
    (InsertHttpLogRequest fault t r).2 = t ∨
      ((InsertHttpLogRequest fault t r).2 = t ++ [toRow r] ∧
        ∀ row ∈ t, row.id ≠ r.ID) := by
  cases fault with
  | some msg => left; rfl
  | none =>
    by_cases hv : validRecord r
    · rw [insert_of_valid t r hv]
      by_cases hany : t.any (fun row => row.id == r.ID) = true
      · left; simp [hany]
      · right
        refine ⟨by simp [hany], ?_⟩
        intro row hrow hid
        apply hany
        rw [List.any_eq_true]
        exact ⟨row, hrow, by simp [hid]⟩
    · left; rw [insert_of_invalid t r hv]

theorem countP_id_le_one (t : Table) (hpk : PrimaryKey t) (x : String) :
    t.countP (fun row => row.id == x) ≤ 1 := by
  have h := List.nodup_iff_count_le_one.mp hpk x
  rw [List.count, List.countP_map] at h
  exact h

theorem insert_prefix (fault : Option String) (t : Table) (r : HttpLogRequest) :
    t <+: (InsertHttpLogRequest fault t r).2 := by
  rcases insert_table_cases fault t r with h | ⟨h, _⟩
  · rw [h]
  · rw [h]; exact List.prefix_append t _

theorem insert_primaryKey (fault : Option String) (t : Table) (r : HttpLogRequest)
    (hpk : PrimaryKey t) : PrimaryKey (InsertHttpLogRequest fault t r).2 := by
  rcases insert_table_cases fault t r with h | ⟨h, hfresh⟩
  · rw [h]; exact hpk
  · rw [h]
    unfold PrimaryKey at *
    rw [List.map_append, List.nodup_append]
    refine ⟨hpk, by simp, ?_⟩
    intro a ha hb
    simp only [List.map_cons, List.map_nil, List.mem_singleton] at hb
    obtain ⟨row, hrow, hid⟩ := List.mem_map.mp ha
    exact hfresh row hrow (by rw [hid, hb]; rfl)

theorem bulk_prefix (rs : List HttpLogRequest) :
    ∀ (faults : Nat → Option String) (t : Table),
      t <+: (BulkInsertHttpLogRequest faults t rs).2 := by
  induction rs with
  | nil => intro faults t; exact List.prefix_refl t
  | cons r rest ih =>
    intro faults t
    unfold BulkInsertHttpLogRequest
    have hp := insert_prefix (faults 0) t r
    rcases hres : InsertHttpLogRequest (faults 0) t r with ⟨err, t1⟩
    rw [hres] at hp
    cases err with
    | some e => exact hp
    | none => exact hp.trans (ih _ t1)

theorem bulk_primaryKey (rs : List HttpLogRequest) :
    ∀ (faults : Nat → Option String) (t : Table), PrimaryKey t →
      PrimaryKey (BulkInsertHttpLogRequest faults t rs).2 := by
  induction rs with
  | nil => intro faults t h; exact h
  | cons r rest ih =>
    intro faults t h
    unfold BulkInsertHttpLogRequest
    have hp := insert_primaryKey (faults 0) t r h
    rcases hres : InsertHttpLogRequest (faults 0) t r with ⟨err, t1⟩
    rw [hres] at hp
    cases err with
    | some e => exact hp
    | none => exact ih _ t1 hp

/-- C1 (idempotent insert). On a table that respects its primary key and a
backend that executes both statements, inserting a valid record twice
succeeds both times, the second call leaves the table exactly as the first
call left it, and exactly one row carries the id of the record. -/
theorem insert_idempotent (t : Table) (R : HttpLogRequest)
    (hpk : PrimaryKey t) (hv : validRecord R) :
    (InsertHttpLogRequest none t R).1 = none ∧
    (InsertHttpLogRequest none (InsertHttpLogRequest none t R).2 R).1 = none ∧
    (InsertHttpLogRequest none (InsertHttpLogRequest none t R).2 R).2
      = (InsertHttpLogRequest none t R).2 ∧
    (InsertHttpLogRequest none (InsertHttpLogRequest none t R).2 R).2.countP
      (fun row => row.id == R.ID) = 1 := by
  have hmem : (InsertHttpLogRequest none t R).2.any (fun row => row.id == R.ID) = true := by
    rw [insert_of_valid t R hv]
    by_cases hany : t.any (fun row => row.id == R.ID) = true
    · simp only [hany, if_true]
    · simp only [hany]
      simp [toRow]
  have h2 : InsertHttpLogRequest none (InsertHttpLogRequest none t R).2 R
      = (none, (InsertHttpLogRequest none t R).2) := by
    rw [insert_of_valid _ R hv, hmem]; rfl
  refine ⟨by rw [insert_of_valid t R hv], by rw [h2], by rw [h2], ?_⟩
  rw [h2]
  have hle := countP_id_le_one _ (insert_primaryKey none t R hpk) R.ID
  have hpos : 0 < (InsertHttpLogRequest none t R).2.countP (fun row => row.id == R.ID) := by
    rw [List.countP_pos_iff]
    rw [List.any_eq_true] at hmem
    exact hmem
  show List.countP (fun row => row.id == R.ID) (InsertHttpLogRequest none t R).2 = 1
  omega

/-- C1 at a concrete table and record. -/
theorem insert_idempotent_witness :
    PrimaryKey [toRow sampleA] ∧ validRecord sampleB ∧
    (InsertHttpLogRequest none (InsertHttpLogRequest none [toRow sampleA] sampleB).2 sampleB).2
      = [toRow sampleA, toRow sampleB] :=
  ⟨by decide, by decide,
    (insert_idempotent [toRow sampleA] sampleB (by decide) (by decide)).2.2.1.trans (by decide)⟩

end db

namespace db

theorem foldInsert_take_succ (faults : Nat → Option String) (t : Table) (r : HttpLogRequest)
    (rest : List HttpLogRequest) (k : Nat) :
    foldInsert faults t ((r :: rest).take (k + 1)) =
      foldInsert (fun i => faults (i + 1)) (InsertHttpLogRequest (faults 0) t r).2
        (rest.take k) := rfl

theorem nthInsertError_succ (faults : Nat → Option String) (t : Table) (r : HttpLogRequest)
    (rest : List HttpLogRequest) (k : Nat) :
    nthInsertError faults t (r :: rest) (k + 1) =
      nthInsertError (fun i => faults (i + 1)) (InsertHttpLogRequest (faults 0) t r).2 rest k := by
  unfold nthInsertError
  rw [List.getElem?_cons_succ, foldInsert_take_succ]

theorem nthInsertError_zero (faults : Nat → Option String) (t : Table) (r : HttpLogRequest)
    (rest : List HttpLogRequest) :
    nthInsertError faults t (r :: rest) 0 = (InsertHttpLogRequest (faults 0) t r).1 := by
  simp [nthInsertError, foldInsert]

/-- A failing insert leaves the table as it found it. -/
theorem insert_error_table (fault : Option String) (t : Table) (r : HttpLogRequest)
    (e : GoError) (h : (InsertHttpLogRequest fault t r).1 = some e) :
    (InsertHttpLogRequest fault t r).2 = t := by
  cases fault with
  | some msg => rfl
  | none =>
    by_cases hv : validRecord r
    · rw [insert_of_valid t r hv] at h; simp at h
    · rw [insert_of_invalid t r hv]

theorem bulk_all_succeed (rs : List HttpLogRequest) :
    ∀ (faults : Nat → Option String) (t : Table),
      (∀ i, i < rs.length → nthInsertError faults t rs i = none) →
      BulkInsertHttpLogRequest faults t rs = (none, foldInsert faults t rs) := by
  induction rs with
  | nil => intro faults t _; rfl
  | cons r rest ih =>
    intro faults t h
    have h0 := h 0 (by simp)
    rw [nthInsertError_zero] at h0
    unfold BulkInsertHttpLogRequest foldInsert
    rcases hres : InsertHttpLogRequest (faults 0) t r with ⟨err, t1⟩
    rw [hres] at h0
    simp only at h0
    subst h0
    simp only
    apply ih
    intro i hi
    have := h (i + 1) (by simpa using hi)
    rw [nthInsertError_succ, hres] at this
    exact this

theorem bulk_first_failure (rs : List HttpLogRequest) :
    ∀ (faults : Nat → Option String) (t : Table) (k : Nat) (e : GoError),
      (∀ i, i < k → nthInsertError faults t rs i = none) →
      nthInsertError faults t rs k = some e →
      BulkInsertHttpLogRequest faults t rs = (some e, foldInsert faults t (rs.take k)) := by
  induction rs with
  | nil => intro faults t k e _ hk; simp [nthInsertError] at hk
  | cons r rest ih =>
    intro faults t k e hlt hk
    cases k with
    | zero =>
      rw [nthInsertError_zero] at hk
      have ht := insert_error_table _ _ _ _ hk
      unfold BulkInsertHttpLogRequest
      rcases hres : InsertHttpLogRequest (faults 0) t r with ⟨err, t1⟩
      rw [hres] at hk ht
      simp only at hk ht
      subst hk ht
      rfl
    | succ k =>
      have h0 := hlt 0 (by omega)
      rw [nthInsertError_zero] at h0
      rw [nthInsertError_succ] at hk
      rw [foldInsert_take_succ]
      unfold BulkInsertHttpLogRequest
      rcases hres : InsertHttpLogRequest (faults 0) t r with ⟨err, t1⟩
      rw [hres] at h0 hk
      simp only at h0 hk
      subst h0
      simp only
      apply ih _ _ _ _ _ hk
      intro i hi
      have := hlt (i + 1) (by omega)
      rw [nthInsertError_succ, hres] at this
      exact this

/-- The errors of the inserts up to position `k` depend only on the first
`k + 1` records and faults. -/
theorem nthInsertError_congr (rs rs2 : List HttpLogRequest) :
    ∀ (faults faults2 : Nat → Option String) (t : Table) (k i : Nat),
      rs2.take (k + 1) = rs.take (k + 1) → (∀ j, j ≤ k → faults2 j = faults j) → i ≤ k →
      nthInsertError faults2 t rs2 i = nthInsertError faults t rs i ∧
      foldInsert faults2 t (rs2.take i) = foldInsert faults t (rs.take i) := by
  induction rs generalizing rs2 with
  | nil =>
    intro faults faults2 t k i htake _ _
    have : rs2 = [] := by
      cases rs2 with
      | nil => rfl
      | cons a l => simp at htake
    subst this
    simp [nthInsertError, foldInsert]
  | cons r rest ih =>
    intro faults faults2 t k i htake hf hi
    cases rs2 with
    | nil => simp at htake
    | cons r2 rest2 =>
      simp only [List.take_succ_cons, List.cons.injEq] at htake
      obtain ⟨hr, hrest⟩ := htake
      subst hr
      cases i with
      | zero =>
        refine ⟨?_, rfl⟩
        rw [nthInsertError_zero, nthInsertError_zero, hf 0 (by omega)]
      | succ i =>
        cases k with
        | zero => omega
        | succ k =>
          rw [nthInsertError_succ, nthInsertError_succ, foldInsert_take_succ,
            foldInsert_take_succ, hf 0 (by omega)]
          exact ih rest2 _ _ _ k i hrest (fun j hj => hf (j + 1) (by omega)) (by omega)

/-- C4 (bulk partial failure). The bulk insert applies Insert to the records
in input order. If the insert at position `k` is the first that fails, the
call returns exactly the error of that insert, the table is the one the
first `k` inserts produced, and nothing after position `k` is consulted:
any other input that agrees on the first `k + 1` records and faults gives
the same result. If no insert fails, the call returns no error and the table
is the fold of Insert over the whole sequence. -/
theorem bulk_insert_partial_failure (faults : Nat → Option String) (t : Table)
    (rs : List HttpLogRequest) :
    (∀ (k : Nat) (e : GoError),
      (∀ i, i < k → nthInsertError faults t rs i = none) →
      nthInsertError faults t rs k = some e →
        BulkInsertHttpLogRequest faults t rs = (some e, foldInsert faults t (rs.take k)) ∧
        ∀ (faults2 : Nat → Option String) (rs2 : List HttpLogRequest),
          rs2.take (k + 1) = rs.take (k + 1) → (∀ j, j ≤ k → faults2 j = faults j) →
          BulkInsertHttpLogRequest faults2 t rs2 = BulkInsertHttpLogRequest faults t rs) ∧
    ((∀ i, i < rs.length → nthInsertError faults t rs i = none) →
      BulkInsertHttpLogRequest faults t rs = (none, foldInsert faults t rs)) := by
  refine ⟨?_, bulk_all_succeed rs faults t⟩
  intro k e hlt hk
  have h1 := bulk_first_failure rs faults t k e hlt hk
  refine ⟨h1, ?_⟩
  intro faults2 rs2 htake hf
  rw [h1]
  have hc := fun i (hi : i ≤ k) => nthInsertError_congr rs rs2 faults faults2 t k i htake hf hi
  rw [bulk_first_failure rs2 faults2 t k e
    (fun i hi => by rw [(hc i (by omega)).1]; exact hlt i hi)
    (by rw [(hc k (le_refl k)).1]; exact hk)]
  rw [(hc k (le_refl k)).2]

/-- C4 at a concrete batch: the second of three records is rejected, the
first is persisted, the third is not. -/
theorem bulk_insert_partial_failure_witness :
    nthInsertError (fun _ => none) [] [sampleA, sampleBad, sampleB] 0 = none ∧
    BulkInsertHttpLogRequest (fun _ => none) [] [sampleA, sampleBad, sampleB] =
      (some (.wrap "failed to insert http log request"
        (.other "pq: value out of range for type integer")), [toRow sampleA]) ∧
    BulkInsertHttpLogRequest (fun _ => none) [] [sampleA, sampleB] =
      (none, [toRow sampleA, toRow sampleB]) :=
  ⟨by decide,
   ((bulk_insert_partial_failure (fun _ => none) [] [sampleA, sampleBad, sampleB]).1 1
      (.wrap "failed to insert http log request"
        (.other "pq: value out of range for type integer"))
      (fun i hi => by
        have : i = 0 := by omega
        subst this; decide)
      (by decide)).1.trans (by decide),
   ((bulk_insert_partial_failure (fun _ => none) [] [sampleA, sampleB]).2
      (fun i hi => by
        have : i = 0 ∨ i = 1 := by simp at hi; omega
        rcases this with h | h <;> subst h <;> decide)).trans (by decide)⟩

/-- C8 (records are never changed or deleted). Whatever the operation, its
arguments and the faults it meets, the table before the call is a prefix of
the table after it, so every row is still there with every field as it
was; a primary key that held before holds after; and the two Get
operations leave the table exactly as it was. -/
theorem rows_immutable (op : StoreOp) (t : Table) :
    t <+: op.tableAfter t ∧
    (∀ row, row ∈ t → row ∈ op.tableAfter t) ∧
    (PrimaryKey t → PrimaryKey (op.tableAfter t)) ∧
    (op.isGet = true → op.tableAfter t = t) := by
  have hpre : t <+: op.tableAfter t := by
    cases op with
    | insert fault r => exact insert_prefix fault t r
    | bulkInsert faults rs => exact bulk_prefix rs faults t
    | getByUrl f u => exact List.prefix_refl t
    | getByUsername f u => exact List.prefix_refl t
  refine ⟨hpre, fun row h => hpre.subset h, ?_, ?_⟩
  · intro hpk
    cases op with
    | insert fault r => exact insert_primaryKey fault t r hpk
    | bulkInsert faults rs => exact bulk_primaryKey rs faults t hpk
    | getByUrl f u => exact hpk
    | getByUsername f u => exact hpk
  · intro hget
    cases op with
    | insert fault r => simp [StoreOp.isGet] at hget
    | bulkInsert faults rs => simp [StoreOp.isGet] at hget
    | getByUrl f u => rfl
    | getByUsername f u => rfl

/-- C8 at a concrete table: a bulk insert that fails half-way keeps the old
row and the primary key. -/
theorem rows_immutable_witness :
    PrimaryKey [toRow sampleA] ∧
    PrimaryKey ((StoreOp.bulkInsert (fun _ => none) [sampleB, sampleBad]).tableAfter
      [toRow sampleA]) ∧
    toRow sampleA ∈ (StoreOp.bulkInsert (fun _ => none) [sampleB, sampleBad]).tableAfter
      [toRow sampleA] :=
  ⟨by decide,
   (rows_immutable (StoreOp.bulkInsert (fun _ => none) [sampleB, sampleBad])
      [toRow sampleA]).2.2.1 (by decide),
   (rows_immutable (StoreOp.bulkInsert (fun _ => none) [sampleB, sampleBad])
      [toRow sampleA]).2.1 _ (by decide)⟩

end db

namespace db

theorem toMicros_fromMicros (micros : Int) : toMicros (fromMicros micros) = micros := by
  unfold toMicros fromMicros; omega

theorem fromMicros_toMicros (nanos : Int) (h : nanos % 1000 = 0) :
    fromMicros (toMicros nanos) = nanos := by
  unfold toMicros fromMicros; omega

/-- Rounding keeps the order of two instants that differ after rounding. -/
theorem lt_of_toMicros_lt (a b : Int) (h : toMicros a < toMicros b) : a < b := by
  unfold toMicros at h; omega

/-- A record with whole microseconds is scanned back unchanged from its row. -/
theorem scanRow_toRow (r : HttpLogRequest) (h : wholeMicros r) :
    scanRow (toRow r) = .ok r := by
  obtain ⟨h1, h2⟩ := h
  cases r
  simp only [scanRow, toRow] at *
  rw [fromMicros_toMicros _ h1, fromMicros_toMicros _ h2]

theorem toRow_of_scanRow (row : Row) (r : HttpLogRequest) (h : scanRow row = .ok r) :
    toRow r = row := by
  unfold scanRow at h
  cases hm : row.error_msg with
  | none => rw [hm] at h; simp at h
  | some msg =>
    rw [hm] at h
    simp only [Except.ok.injEq] at h
    subst h
    cases row
    simp_all [toRow, toMicros_fromMicros]

/-- A scanned record carries whole microseconds. -/
theorem timeIn_of_scanRow (row : Row) (r : HttpLogRequest) (h : scanRow row = .ok r) :
    r.TimeIn = fromMicros (toMicros r.TimeIn) := by
  unfold scanRow at h
  cases hm : row.error_msg with
  | none => rw [hm] at h; simp at h
  | some msg =>
    rw [hm] at h
    simp only [Except.ok.injEq] at h
    subst h
    simp only [toMicros_fromMicros]

theorem scanRow_error_iff (row : Row) :
    (∃ e, scanRow row = .error e) ↔ row.error_msg = none := by
  unfold scanRow
  cases row.error_msg <;> simp

/-- A scan loop that completes returns one record per row, each the image of
its row. -/
theorem scanRows_ok (l : List Row) :
    ∀ rs, scanRows l = .ok rs → rs.map toRow = l := by
  induction l with
  | nil => intro rs h; simp [scanRows] at h; subst h; rfl
  | cons row rest ih =>
    intro rs h
    unfold scanRows at h
    cases h1 : scanRow row with
    | error e => rw [h1] at h; simp at h
    | ok r =>
      rw [h1] at h
      cases h2 : scanRows rest with
      | error e => rw [h2] at h; simp at h
      | ok rs1 =>
        rw [h2] at h
        simp only [Except.ok.injEq] at h
        subst h
        simp [toRow_of_scanRow row r h1, ih rs1 h2]

/-- A scan loop that completes returns the record of every row. -/
theorem scanRows_mem (l : List Row) :
    ∀ rs, scanRows l = .ok rs → ∀ row ∈ l, ∀ r, scanRow row = .ok r → r ∈ rs := by
  induction l with
  | nil => intro rs _ row hrow; simp at hrow
  | cons x rest ih =>
    intro rs h row hrow r hr
    unfold scanRows at h
    cases h1 : scanRow x with
    | error e => rw [h1] at h; simp at h
    | ok r0 =>
      rw [h1] at h
      cases h2 : scanRows rest with
      | error e => rw [h2] at h; simp at h
      | ok rs1 =>
        rw [h2] at h
        simp only [Except.ok.injEq] at h
        subst h
        rcases List.mem_cons.mp hrow with heq | hmem
        · subst heq
          rw [h1] at hr
          simp only [Except.ok.injEq] at hr
          subst hr
          exact List.mem_cons_self _ _
        · exact List.mem_cons_of_mem _ (ih rs1 h2 row hmem r hr)

/-- A scan loop that completes returns only records scanned from a row. -/
theorem scanRows_mem_inv (l : List Row) :
    ∀ rs, scanRows l = .ok rs → ∀ r ∈ rs, ∃ row ∈ l, scanRow row = .ok r := by
  induction l with
  | nil =>
    intro rs h r hr
    simp only [scanRows, Except.ok.injEq] at h
    subst h
    simp at hr
  | cons x rest ih =>
    intro rs h r hr
    unfold scanRows at h
    cases h1 : scanRow x with
    | error e => rw [h1] at h; simp at h
    | ok r0 =>
      rw [h1] at h
      cases h2 : scanRows rest with
      | error e => rw [h2] at h; simp at h
      | ok rs1 =>
        rw [h2] at h
        simp only [Except.ok.injEq] at h
        subst h
        rcases List.mem_cons.mp hr with heq | hmem
        · subst heq
          exact ⟨x, List.mem_cons_self _ _, h1⟩
        · obtain ⟨row, hrow, hscan⟩ := ih rs1 h2 r hmem
          exact ⟨row, List.mem_cons_of_mem _ hrow, hscan⟩

/-- The scan loop completes when no row holds a NULL `error_msg`. -/
theorem scanRows_total (l : List Row) (h : ∀ row ∈ l, row.error_msg ≠ none) :
    ∃ rs, scanRows l = .ok rs := by
  induction l with
  | nil => exact ⟨[], rfl⟩
  | cons row rest ih =>
    obtain ⟨rs, hrs⟩ := ih (fun x hx => h x (List.mem_cons_of_mem _ hx))
    have hrow := h row (List.mem_cons_self _ _)
    cases h1 : scanRow row with
    | error e => exact absurd ((scanRow_error_iff row).mp ⟨e, h1⟩) hrow
    | ok r => exact ⟨r :: rs, by simp [scanRows, h1, hrs]⟩

/-- The only way the shared body returns a nil error: no fault, a scan loop
that completed, and at least one record. -/
theorem getRequests_ok_inv (what : String) (fault : QueryFault) (matched : List Row)
    (h : (getRequests what fault matched).2 = none) :
    fault = .none ∧ scanRows matched = .ok (getRequests what fault matched).1 ∧
      (getRequests what fault matched).1 ≠ [] := by
  unfold getRequests at h ⊢
  cases fault with
  | query msg => simp at h
  | iter k msg =>
    simp only at h
    cases hs : scanRows (List.take k matched) <;> rw [hs] at h <;> simp at h
  | none =>
    simp only at h ⊢
    cases hs : scanRows matched with
    | error e => rw [hs] at h; simp at h
    | ok rs =>
      rw [hs] at h
      simp only at h ⊢
      by_cases hl : rs.length = 0
      · simp [hl] at h
      · simp only [hl, if_false]
        exact ⟨trivial, trivial, fun hnil => hl (by rw [hnil]; rfl)⟩

theorem getRequests_notFound_iff (what : String) (matched : List Row) :
    (getRequests what .none matched).2 = some .ErrNotFound ↔ matched = [] := by
  unfold getRequests
  simp only
  cases hs : scanRows matched with
  | error e =>
    simp only
    constructor
    · intro h; simp at h
    · intro h; subst h; simp [scanRows] at hs
  | ok rs =>
    simp only
    have hmap := scanRows_ok matched rs hs
    by_cases hl : rs.length = 0
    · simp only [hl, if_true, true_iff]
      rw [← hmap, List.length_eq_zero.mp hl]; rfl
    · simp only [hl, if_false]
      constructor
      · intro h; simp at h
      · intro h; subst h
        exact absurd (by rw [List.map_eq_nil_iff.mp hmap]; rfl) hl

theorem getRequests_of_scannable (what : String) (matched : List Row)
    (hne : matched ≠ []) (h : ∀ row ∈ matched, row.error_msg ≠ none) :
    (getRequests what .none matched).2 = none ∧
      (getRequests what .none matched).1.map toRow = matched := by
  obtain ⟨rs, hrs⟩ := scanRows_total matched h
  have hmap := scanRows_ok matched rs hrs
  have hl : ¬ rs.length = 0 := by
    intro h0
    apply hne
    rw [← hmap, List.length_eq_zero.mp h0]; rfl
  unfold getRequests
  simp only [hrs, hl, if_false]
  exact ⟨trivial, hmap⟩

theorem orderBy_eq_nil_iff (rows : List Row) : orderByTimeInDesc rows = [] ↔ rows = [] := by
  unfold orderByTimeInDesc
  rw [← List.length_eq_zero, List.length_insertionSort, List.length_eq_zero]

theorem mem_orderBy (rows : List Row) (row : Row) :
    row ∈ orderByTimeInDesc rows ↔ row ∈ rows :=
  (List.perm_insertionSort _ rows).mem_iff

theorem orderBy_pairwise (rows : List Row) :
    (orderByTimeInDesc rows).Pairwise (fun a b => b.time_in ≤ a.time_in) := by
  have : IsTotal Row (fun a b => b.time_in ≤ a.time_in) := ⟨fun a b => le_total _ _⟩
  have : IsTrans Row (fun a b => b.time_in ≤ a.time_in) := ⟨fun a b c h1 h2 => le_trans h2 h1⟩
  exact List.sorted_insertionSort (fun a b : Row => b.time_in ≤ a.time_in) rows

theorem filter_eq_nil_iff_countP (t : Table) (p : Row → Bool) :
    t.filter p = [] ↔ t.countP p = 0 := by
  rw [List.countP_eq_length_filter, List.length_eq_zero]

/-- C2 (not-found contract). When the query succeeds (no fault on
`QueryContext` nor on the row stream), each Get method returns `ErrNotFound`
if and only if no row matches the filter; and whatever happens, it never
returns a nil error together with an empty list. -/
theorem get_not_found_contract (t : Table) (v : String) :
    ((GetHttpLogRequestsByUrl .none t v).2 = some .ErrNotFound ↔
      t.countP (fun row => row.url == v) = 0) ∧
    ((GetHttpLogRequestsByUsername .none t v).2 = some .ErrNotFound ↔
      t.countP (fun row => row.username == v) = 0) ∧
    (∀ fault, GetHttpLogRequestsByUrl fault t v ≠ ([], none) ∧
      ((GetHttpLogRequestsByUrl fault t v).2 = none →
        (GetHttpLogRequestsByUrl fault t v).1 ≠ [])) ∧
    (∀ fault, GetHttpLogRequestsByUsername fault t v ≠ ([], none) ∧
      ((GetHttpLogRequestsByUsername fault t v).2 = none →
        (GetHttpLogRequestsByUsername fault t v).1 ≠ [])) := by
  refine ⟨?_, ?_, ?_, ?_⟩
  · unfold GetHttpLogRequestsByUrl selectByUrl
    rw [getRequests_notFound_iff, orderBy_eq_nil_iff, filter_eq_nil_iff_countP]
  · unfold GetHttpLogRequestsByUsername selectByUsername
    rw [getRequests_notFound_iff, orderBy_eq_nil_iff, filter_eq_nil_iff_countP]
  · intro fault
    have key := fun h => (getRequests_ok_inv "url" fault (selectByUrl t v) h).2.2
    refine ⟨fun heq => ?_, key⟩
    have h2 : (GetHttpLogRequestsByUrl fault t v).2 = none := by rw [heq]
    exact key h2 (by
      show (GetHttpLogRequestsByUrl fault t v).1 = []
      rw [heq])
  · intro fault
    have key := fun h => (getRequests_ok_inv "username" fault (selectByUsername t v) h).2.2
    refine ⟨fun heq => ?_, key⟩
    have h2 : (GetHttpLogRequestsByUsername fault t v).2 = none := by rw [heq]
    exact key h2 (by
      show (GetHttpLogRequestsByUsername fault t v).1 = []
      rw [heq])

/-- C2 at two concrete tables: not found on the empty table, a list of one
record on a table with one matching row. -/
theorem get_not_found_contract_witness :
    GetHttpLogRequestsByUrl .none [] "/a" = ([], some .ErrNotFound) ∧
    GetHttpLogRequestsByUrl .none [toRow sampleA] "/a" = ([sampleA], none) ∧
    (GetHttpLogRequestsByUsername .none [toRow sampleA] "eve").2 = some .ErrNotFound :=
  ⟨by decide, by decide,
   (get_not_found_contract [toRow sampleA] "eve").2.1.mpr (by decide)⟩

end db

namespace db

/-- In a list ordered by `TimeIn`, latest first, a record with a later
`TimeIn` stands at a smaller index than one with an earlier `TimeIn`. -/
theorem index_lt_of_pairwise (out : List HttpLogRequest)
    (hp : out.Pairwise (fun a b => b.TimeIn ≤ a.TimeIn)) (a b : HttpLogRequest)
    (hab : a.TimeIn < b.TimeIn) (i j : Nat) (hi : out[i]? = some b) (hj : out[j]? = some a) :
    i < j := by
  obtain ⟨hil, hib⟩ := List.getElem?_eq_some.mp hi
  obtain ⟨hjl, hja⟩ := List.getElem?_eq_some.mp hj
  by_contra hij
  rcases Nat.lt_or_eq_of_le (Nat.le_of_not_lt hij) with hlt | heq
  · have := List.pairwise_iff_getElem.mp hp j i hjl hil hlt
    rw [hib, hja] at this
    omega
  · subst heq
    rw [hib] at hja
    subst hja
    omega

/-- The ordering facts shared by the two Get methods, for a query that
selects the rows satisfying `p`. -/
theorem getRequests_ordering (what : String) (fault : QueryFault) (t : Table)
    (p : Row → Bool)
    (h : (getRequests what fault (orderByTimeInDesc (t.filter p))).2 = none) :
    (getRequests what fault (orderByTimeInDesc (t.filter p))).1.Pairwise
      (fun a b => b.TimeIn ≤ a.TimeIn) ∧
    ∀ A B : Row, A ∈ t → B ∈ t → p A = true → p B = true → A.time_in < B.time_in →
      (∃ i j : Nat, i < j ∧
        ((getRequests what fault (orderByTimeInDesc (t.filter p))).1[i]?).map toRow = some B ∧
        ((getRequests what fault (orderByTimeInDesc (t.filter p))).1[j]?).map toRow = some A) ∧
      (∀ i j : Nat,
        ((getRequests what fault (orderByTimeInDesc (t.filter p))).1[i]?).map toRow = some B →
        ((getRequests what fault (orderByTimeInDesc (t.filter p))).1[j]?).map toRow = some A →
        i < j) := by
  obtain ⟨_, hscan, _⟩ := getRequests_ok_inv what fault _ h
  have hmap := scanRows_ok _ _ hscan
  have hwhole := scanRows_mem_inv _ _ hscan
  generalize (getRequests what fault (orderByTimeInDesc (t.filter p))).1 = out at hmap hwhole ⊢
  have htime : ∀ r ∈ out, r.TimeIn = fromMicros (toMicros r.TimeIn) := by
    intro r hr
    obtain ⟨row, _, hrow⟩ := hwhole r hr
    exact timeIn_of_scanRow row r hrow
  have hpw : out.Pairwise (fun a b => b.TimeIn ≤ a.TimeIn) := by
    have hsorted := orderBy_pairwise (t.filter p)
    rw [← hmap, List.pairwise_map] at hsorted
    refine hsorted.imp_of_mem ?_
    intro a b ha hb hab
    have h1 := htime a ha
    have h2 := htime b hb
    simp only [toRow] at hab
    unfold fromMicros at h1 h2
    omega
  have hall : ∀ i j (a b : HttpLogRequest), a.TimeIn < b.TimeIn →
      out[i]? = some b → out[j]? = some a → i < j :=
    fun i j a b hab hi hj => index_lt_of_pairwise out hpw a b hab i j hi hj
  refine ⟨hpw, ?_⟩
  intro A B hA hB hpA hpB hlt
  have hmemA : A ∈ out.map toRow := by
    rw [hmap, mem_orderBy]; exact List.mem_filter.mpr ⟨hA, hpA⟩
  have hmemB : B ∈ out.map toRow := by
    rw [hmap, mem_orderBy]; exact List.mem_filter.mpr ⟨hB, hpB⟩
  have hord : ∀ i j : Nat, (out[i]?).map toRow = some B → (out[j]?).map toRow = some A → i < j := by
    intro i j hi hj
    obtain ⟨b, hb, hbB⟩ := Option.map_eq_some'.mp hi
    obtain ⟨a, ha, haA⟩ := Option.map_eq_some'.mp hj
    refine hall i j a b ?_ hb ha
    have h1 : (toRow a).time_in = A.time_in := by rw [haA]
    have h2 : (toRow b).time_in = B.time_in := by rw [hbB]
    simp only [toRow] at h1 h2
    exact lt_of_toMicros_lt _ _ (by omega)
  obtain ⟨i, hi⟩ := List.mem_iff_getElem?.mp hmemB
  obtain ⟨j, hj⟩ := List.mem_iff_getElem?.mp hmemA
  rw [List.getElem?_map] at hi hj
  exact ⟨⟨i, j, hord i j hi hj, hi, hj⟩, hord⟩

/-- On a backend that meets no fault, a query that selects at least one row,
and only rows without a NULL `error_msg`, returns a list and a nil error. -/
theorem getRequests_success (what : String) (t : Table) (p : Row → Bool)
    (hscan : ∀ row ∈ t, p row = true → row.error_msg ≠ none)
    (hsome : ∃ row ∈ t, p row = true) :
    (getRequests what .none (orderByTimeInDesc (t.filter p))).2 = none := by
  obtain ⟨row, hrow, hp⟩ := hsome
  have hin : row ∈ orderByTimeInDesc (t.filter p) := by
    rw [mem_orderBy]; exact List.mem_filter.mpr ⟨hrow, hp⟩
  have hall : ∀ x ∈ orderByTimeInDesc (t.filter p), x.error_msg ≠ none := by
    intro x hx
    rw [mem_orderBy] at hx
    obtain ⟨hx1, hpx⟩ := List.mem_filter.mp hx
    exact hscan x hx1 hpx
  exact (getRequests_of_scannable what _ (List.ne_nil_of_mem hin) hall).1

/-- C7 (ordering). For each Get method, on a backend that meets no fault and
a table whose matching rows hold no NULL `error_msg`: if some row matches,
the method returns a nil error and a list sorted by `TimeIn` in
non-increasing order; and for rows A and B of the table that both match the
filter with A.time_in < B.time_in, the method returns a nil error and a
list in which both stand, every place of B strictly before every place of
A. More generally, under every fault and on every table, whenever the
method returns a nil error its list is sorted and orders A and B so. -/
theorem get_ordering (fault : QueryFault) (t : Table) (v : String) :
    (((∀ row ∈ t, row.url = v → row.error_msg ≠ none) →
        ((∃ row ∈ t, row.url = v) →
          (GetHttpLogRequestsByUrl .none t v).2 = none ∧
          (GetHttpLogRequestsByUrl .none t v).1.Pairwise (fun a b => b.TimeIn ≤ a.TimeIn)) ∧
        (∀ A B : Row, A ∈ t → B ∈ t → A.url = v → B.url = v → A.time_in < B.time_in →
          (GetHttpLogRequestsByUrl .none t v).2 = none ∧
          (∃ i j : Nat, i < j ∧
            ((GetHttpLogRequestsByUrl .none t v).1[i]?).map toRow = some B ∧
            ((GetHttpLogRequestsByUrl .none t v).1[j]?).map toRow = some A) ∧
          (∀ i j : Nat, ((GetHttpLogRequestsByUrl .none t v).1[i]?).map toRow = some B →
            ((GetHttpLogRequestsByUrl .none t v).1[j]?).map toRow = some A → i < j))) ∧
      ((GetHttpLogRequestsByUrl fault t v).2 = none →
        (GetHttpLogRequestsByUrl fault t v).1.Pairwise (fun a b => b.TimeIn ≤ a.TimeIn) ∧
        ∀ A B : Row, A ∈ t → B ∈ t → A.url = v → B.url = v → A.time_in < B.time_in →
          (∃ i j : Nat, i < j ∧
            ((GetHttpLogRequestsByUrl fault t v).1[i]?).map toRow = some B ∧
            ((GetHttpLogRequestsByUrl fault t v).1[j]?).map toRow = some A) ∧
          (∀ i j : Nat, ((GetHttpLogRequestsByUrl fault t v).1[i]?).map toRow = some B →
            ((GetHttpLogRequestsByUrl fault t v).1[j]?).map toRow = some A → i < j))) ∧
    (((∀ row ∈ t, row.username = v → row.error_msg ≠ none) →
        ((∃ row ∈ t, row.username = v) →
          (GetHttpLogRequestsByUsername .none t v).2 = none ∧
          (GetHttpLogRequestsByUsername .none t v).1.Pairwise
            (fun a b => b.TimeIn ≤ a.TimeIn)) ∧
        (∀ A B : Row, A ∈ t → B ∈ t → A.username = v → B.username = v →
          A.time_in < B.time_in →
          (GetHttpLogRequestsByUsername .none t v).2 = none ∧
          (∃ i j : Nat, i < j ∧
            ((GetHttpLogRequestsByUsername .none t v).1[i]?).map toRow = some B ∧
            ((GetHttpLogRequestsByUsername .none t v).1[j]?).map toRow = some A) ∧
          (∀ i j : Nat,
            ((GetHttpLogRequestsByUsername .none t v).1[i]?).map toRow = some B →
            ((GetHttpLogRequestsByUsername .none t v).1[j]?).map toRow = some A → i < j))) ∧
      ((GetHttpLogRequestsByUsername fault t v).2 = none →
        (GetHttpLogRequestsByUsername fault t v).1.Pairwise (fun a b => b.TimeIn ≤ a.TimeIn) ∧
        ∀ A B : Row, A ∈ t → B ∈ t → A.username = v → B.username = v →
          A.time_in < B.time_in →
          (∃ i j : Nat, i < j ∧
            ((GetHttpLogRequestsByUsername fault t v).1[i]?).map toRow = some B ∧
            ((GetHttpLogRequestsByUsername fault t v).1[j]?).map toRow = some A) ∧
          (∀ i j : Nat,
            ((GetHttpLogRequestsByUsername fault t v).1[i]?).map toRow = some B →
            ((GetHttpLogRequestsByUsername fault t v).1[j]?).map toRow = some A → i < j))) := by
  have gen : ∀ (what : String) (p : Row → Bool) (f : QueryFault),
      (getRequests what f (orderByTimeInDesc (t.filter p))).2 = none →
      (getRequests what f (orderByTimeInDesc (t.filter p))).1.Pairwise
        (fun a b => b.TimeIn ≤ a.TimeIn) ∧
      ∀ A B : Row, A ∈ t → B ∈ t → p A = true → p B = true → A.time_in < B.time_in →
        (∃ i j : Nat, i < j ∧
          ((getRequests what f (orderByTimeInDesc (t.filter p))).1[i]?).map toRow = some B ∧
          ((getRequests what f (orderByTimeInDesc (t.filter p))).1[j]?).map toRow = some A) ∧
        (∀ i j : Nat,
          ((getRequests what f (orderByTimeInDesc (t.filter p))).1[i]?).map toRow = some B →
          ((getRequests what f (orderByTimeInDesc (t.filter p))).1[j]?).map toRow = some A →
          i < j) :=
    fun what p f h => getRequests_ordering what f t p h
  refine ⟨⟨?_, ?_⟩, ⟨?_, ?_⟩⟩
  · intro hscan
    have hok : (∃ row ∈ t, row.url = v) → (GetHttpLogRequestsByUrl .none t v).2 = none := by
      intro ⟨row, hrow, hv⟩
      exact getRequests_success "url" t (fun row => row.url == v)
        (fun x hx hp => hscan x hx (by simpa using hp)) ⟨row, hrow, by simp [hv]⟩
    refine ⟨fun hsome => ⟨hok hsome, (gen "url" (fun row => row.url == v) .none (hok hsome)).1⟩, ?_⟩
    intro A B hA hB hAu hBu hlt
    have hnil := hok ⟨A, hA, hAu⟩
    exact ⟨hnil, (gen "url" (fun row => row.url == v) .none hnil).2 A B hA hB
      (by simp [hAu]) (by simp [hBu]) hlt⟩
  · intro h
    have key := gen "url" (fun row => row.url == v) fault h
    refine ⟨key.1, ?_⟩
    intro A B hA hB hAu hBu hlt
    exact key.2 A B hA hB (by simp [hAu]) (by simp [hBu]) hlt
  · intro hscan
    have hok : (∃ row ∈ t, row.username = v) →
        (GetHttpLogRequestsByUsername .none t v).2 = none := by
      intro ⟨row, hrow, hv⟩
      exact getRequests_success "username" t (fun row => row.username == v)
        (fun x hx hp => hscan x hx (by simpa using hp)) ⟨row, hrow, by simp [hv]⟩
    refine ⟨fun hsome =>
      ⟨hok hsome, (gen "username" (fun row => row.username == v) .none (hok hsome)).1⟩, ?_⟩
    intro A B hA hB hAu hBu hlt
    have hnil := hok ⟨A, hA, hAu⟩
    exact ⟨hnil, (gen "username" (fun row => row.username == v) .none hnil).2 A B hA hB
      (by simp [hAu]) (by simp [hBu]) hlt⟩
  · intro h
    have key := gen "username" (fun row => row.username == v) fault h
    refine ⟨key.1, ?_⟩
    intro A B hA hB hAu hBu hlt
    exact key.2 A B hA hB (by simp [hAu]) (by simp [hBu]) hlt

/-- C7 at a concrete table, for both methods: a list is returned and the
later record comes first. -/
theorem get_ordering_witness :
    (toRow sampleA).time_in < (toRow sampleB).time_in ∧
    GetHttpLogRequestsByUrl .none [toRow sampleA, toRow sampleB] "/a"
      = ([sampleB, sampleA], none) ∧
    GetHttpLogRequestsByUsername .none [toRow sampleA, toRow sampleB] "bob"
      = ([sampleB, sampleA], none) ∧
    (GetHttpLogRequestsByUrl .none [toRow sampleA, toRow sampleB] "/a").2 = none ∧
    (GetHttpLogRequestsByUsername .none [toRow sampleA, toRow sampleB] "bob").2 = none ∧
    (GetHttpLogRequestsByUsername .none [toRow sampleA, toRow sampleB] "bob").1.Pairwise
      (fun a b => b.TimeIn ≤ a.TimeIn) :=
  ⟨by decide, by decide, by decide,
   (((get_ordering .none [toRow sampleA, toRow sampleB] "/a").1.1 (by decide)).2
      (toRow sampleA) (toRow sampleB) (by decide) (by decide) (by decide) (by decide)
      (by decide)).1,
   (((get_ordering .none [toRow sampleA, toRow sampleB] "bob").2.1 (by decide)).2
      (toRow sampleA) (toRow sampleB) (by decide) (by decide) (by decide) (by decide)
      (by decide)).1,
   (((get_ordering .none [toRow sampleA, toRow sampleB] "bob").2.1 (by decide)).1
      ⟨toRow sampleA, by decide, by decide⟩).2⟩

/-- After an insert that returned no error, on a table whose row with the id
of the record (if any) is the row of the record, the row of the record is in
the table and every other row was there before. -/
theorem insert_ok_mem (fault : Option String) (t : Table) (R : HttpLogRequest)
    (hins : (InsertHttpLogRequest fault t R).1 = none)
    (hid : ∀ row ∈ t, row.id = R.ID → row = toRow R) :
    toRow R ∈ (InsertHttpLogRequest fault t R).2 ∧
    ∀ row ∈ (InsertHttpLogRequest fault t R).2, row ∈ t ∨ row = toRow R := by
  obtain ⟨hf, hv⟩ := insert_ok_inv fault t R hins
  subst hf
  rw [insert_of_valid t R hv]
  by_cases hany : t.any (fun row => row.id == R.ID) = true
  · simp only [hany, if_true]
    obtain ⟨row, hrow, hrid⟩ := List.any_eq_true.mp hany
    have := hid row hrow (by simpa using hrid)
    exact ⟨this ▸ hrow, fun x hx => Or.inl hx⟩
  · simp only [hany]
    refine ⟨by simp, ?_⟩
    intro x hx
    simpa using hx

/-- The round trip through a query that selects the rows satisfying `p`, for
a record with whole microseconds. -/
theorem getRequests_roundtrip (what : String) (t1 t : Table) (R : HttpLogRequest)
    (p : Row → Bool) (hwhole : wholeMicros R) (hp : p (toRow R) = true)
    (hmem : toRow R ∈ t1) (hsub : ∀ row ∈ t1, row ∈ t ∨ row = toRow R)
    (hscan : ∀ row ∈ t, p row = true → row.error_msg ≠ none) :
    (getRequests what .none (orderByTimeInDesc (t1.filter p))).2 = none ∧
    R ∈ (getRequests what .none (orderByTimeInDesc (t1.filter p))).1 := by
  have hin : toRow R ∈ orderByTimeInDesc (t1.filter p) := by
    rw [mem_orderBy]; exact List.mem_filter.mpr ⟨hmem, hp⟩
  have hne : orderByTimeInDesc (t1.filter p) ≠ [] := List.ne_nil_of_mem hin
  have hall : ∀ row ∈ orderByTimeInDesc (t1.filter p), row.error_msg ≠ none := by
    intro row hrow
    rw [mem_orderBy] at hrow
    obtain ⟨hrow1, hprow⟩ := List.mem_filter.mp hrow
    rcases hsub row hrow1 with h | h
    · exact hscan row h hprow
    · rw [h]; simp [toRow]
  obtain ⟨hnil, _⟩ := getRequests_of_scannable what _ hne hall
  obtain ⟨_, hscanned, _⟩ := getRequests_ok_inv what .none _ hnil
  exact ⟨hnil, scanRows_mem _ _ hscanned (toRow R) hin R (scanRow_toRow R hwhole)⟩

/-- C3 as stated fails at three inputs. First, a table that holds another
record under the id of R: the insert returns no error and changes nothing,
and the Get by the url of R reports not found. Second, a record R whose
`TimeIn` has a digit below the microsecond, inserted into the empty table:
the Get returns the record with the time rounded, which is not R. Third, a
table that holds a row with a NULL `error_msg` under the url of R: the
insert returns no error and the Get fails to scan. -/
theorem roundtrip_counterexample :
    (PrimaryKey [toRow sampleA] ∧ validRecord sampleConflict ∧
      InsertHttpLogRequest none [toRow sampleA] sampleConflict = (none, [toRow sampleA]) ∧
      GetHttpLogRequestsByUrl .none
        (InsertHttpLogRequest none [toRow sampleA] sampleConflict).2 sampleConflict.URL
        = ([], some .ErrNotFound) ∧
      GetHttpLogRequestsByUsername .none
        (InsertHttpLogRequest none [toRow sampleA] sampleConflict).2 sampleConflict.Username
        = ([], some .ErrNotFound)) ∧
    (validRecord sampleNanos ∧
      (InsertHttpLogRequest none [] sampleNanos).1 = none ∧
      GetHttpLogRequestsByUrl .none
        (InsertHttpLogRequest none [] sampleNanos).2 sampleNanos.URL
        = ([{ sampleNanos with TimeIn := 5000 }], none) ∧
      sampleNanos ∉ (GetHttpLogRequestsByUrl .none
        (InsertHttpLogRequest none [] sampleNanos).2 sampleNanos.URL).1 ∧
      sampleNanos ∉ (GetHttpLogRequestsByUsername .none
        (InsertHttpLogRequest none [] sampleNanos).2 sampleNanos.Username).1) ∧
    (PrimaryKey [sampleNullRow] ∧ validRecord sampleB ∧
      (InsertHttpLogRequest none [sampleNullRow] sampleB).1 = none ∧
      (GetHttpLogRequestsByUrl .none
        (InsertHttpLogRequest none [sampleNullRow] sampleB).2 sampleB.URL).2 ≠ none ∧
      (GetHttpLogRequestsByUsername .none
        (InsertHttpLogRequest none [sampleNullRow] sampleB).2 sampleB.Username).2 ≠ none) := by
  decide

/-- C3, amended (round-trip fidelity). If the insert of R returns no error,
`TimeIn` and `TimeOut` of R carry no digits below the microsecond, the
table held no row with the id of R other than the row of R, and the rows
that match the filter hold no NULL `error_msg`, then on a backend that
executes the query the Get by the url of R (by its username) returns no
error and a list that contains R, equal in all twelve fields. -/
theorem roundtrip_fidelity (fault : Option String) (t : Table) (R : HttpLogRequest)
    (hins : (InsertHttpLogRequest fault t R).1 = none)
    (hwhole : wholeMicros R)
    (hid : ∀ row ∈ t, row.id = R.ID → row = toRow R) :
    ((∀ row ∈ t, row.url = R.URL → row.error_msg ≠ none) →
      (GetHttpLogRequestsByUrl .none (InsertHttpLogRequest fault t R).2 R.URL).2 = none ∧
      R ∈ (GetHttpLogRequestsByUrl .none (InsertHttpLogRequest fault t R).2 R.URL).1) ∧
    ((∀ row ∈ t, row.username = R.Username → row.error_msg ≠ none) →
      (GetHttpLogRequestsByUsername .none (InsertHttpLogRequest fault t R).2 R.Username).2
        = none ∧
      R ∈ (GetHttpLogRequestsByUsername .none
        (InsertHttpLogRequest fault t R).2 R.Username).1) := by
  obtain ⟨hmem, hsub⟩ := insert_ok_mem fault t R hins hid
  constructor
  · intro hscan
    exact getRequests_roundtrip "url" _ t R (fun row => row.url == R.URL) hwhole
      (by simp [toRow]) hmem hsub (fun row hrow hp => hscan row hrow (by simpa using hp))
  · intro hscan
    exact getRequests_roundtrip "username" _ t R (fun row => row.username == R.Username) hwhole
      (by simp [toRow]) hmem hsub (fun row hrow hp => hscan row hrow (by simpa using hp))

/-- C3 amended, at a concrete table and record. -/
theorem roundtrip_fidelity_witness :
    (InsertHttpLogRequest none [toRow sampleA] sampleB).1 = none ∧
    wholeMicros sampleB ∧
    sampleB ∈ (GetHttpLogRequestsByUrl .none
      (InsertHttpLogRequest none [toRow sampleA] sampleB).2 sampleB.URL).1 ∧
    sampleB ∈ (GetHttpLogRequestsByUsername .none
      (InsertHttpLogRequest none [toRow sampleA] sampleB).2 sampleB.Username).1 :=
  ⟨by decide, by decide,
   ((roundtrip_fidelity none [toRow sampleA] sampleB (by decide) (by decide) (by decide)).1
      (by decide)).2,
   ((roundtrip_fidelity none [toRow sampleA] sampleB (by decide) (by decide) (by decide)).2
      (by decide)).2⟩

end db

namespace api

open db

theorem containsStr_prefix (sub suf : String) : containsStr (sub ++ suf) sub :=
  ⟨"", suf, by simp⟩

theorem httpError_status (msg : String) (code : Nat) : (httpError msg code).status = code := rfl

theorem httpError_body (msg : String) (code : Nat) : (httpError msg code).body = msg ++ "\n" :=
  rfl

theorem queryGet_of_absent (query : List (String × String)) (key : String)
    (h : ∀ kv ∈ query, kv.1 ≠ key) : queryGet query key = "" := by
  unfold queryGet
  have : query.find? (fun kv => kv.1 == key) = none := by
    rw [List.find?_eq_none]
    intro kv hkv
    simpa using h kv hkv
  rw [this]

theorem queryGet_of_first (pre rest : List (String × String)) (key v : String)
    (h : ∀ kv ∈ pre, kv.1 ≠ key) : queryGet (pre ++ (key, v) :: rest) key = v := by
  unfold queryGet
  induction pre with
  | nil => simp
  | cons kv pre ih =>
    have hkv : (kv.1 == key) = false := by simpa using h kv (List.mem_cons_self _ _)
    rw [List.cons_append, List.find?_cons, hkv]
    exact ih (fun x hx => h x (List.mem_cons_of_mem _ hx))

/-- A read handler that finds a value for its parameter hands the store on
as the call left it. -/
theorem get_url_handler_state {σ : Type} (lib : JsonLib) (c : Client σ) (r : Request)
    (s : σ) (hne : queryGet r.query "url" ≠ "") :
    (GetHttpLogRequestsByUrl lib c r s).2
      = (c.GetHttpLogRequestsByUrl (queryGet r.query "url") s).2 := by
  unfold GetHttpLogRequestsByUrl
  simp only [hne, if_false]
  rcases c.GetHttpLogRequestsByUrl (queryGet r.query "url") s with ⟨⟨rs, err⟩, s1⟩
  cases err with
  | none => rfl
  | some e0 => simp only; split_ifs <;> rfl

theorem get_username_handler_state {σ : Type} (lib : JsonLib) (c : Client σ)
    (r : Request) (s : σ) (hne : queryGet r.query "username" ≠ "") :
    (GetHttpLogRequestsByUsername lib c r s).2
      = (c.GetHttpLogRequestsByUsername (queryGet r.query "username") s).2 := by
  unfold GetHttpLogRequestsByUsername
  simp only [hne, if_false]
  rcases c.GetHttpLogRequestsByUsername (queryGet r.query "username") s with ⟨⟨rs, err⟩, s1⟩
  cases err with
  | none => rfl
  | some e0 => simp only; split_ifs <;> rfl

/-- C5 (read endpoints, status mapping). For every request and every
client: 400 when `Query().Get` finds no value for the parameter (in
particular when the parameter is missing); otherwise the store is called
with the value, and the reply is 404 with a body containing "no logs found"
when the returned error is `ErrNotFound` (`errors.Is`), 500 on any other
error, and else 200 with `Content-Type: application/json` and the encoding
of exactly the list returned as body. -/
theorem read_status_mapping {σ : Type} (lib : JsonLib) (c : Client σ) (r : Request) (s : σ) :
    (((∀ kv ∈ r.query, kv.1 ≠ "url") →
        (GetHttpLogRequestsByUrl lib c r s).1.status = 400) ∧
      (queryGet r.query "url" = "" →
        (GetHttpLogRequestsByUrl lib c r s).1.status = 400 ∧
        (GetHttpLogRequestsByUrl lib c r s).2 = s) ∧
      (queryGet r.query "url" ≠ "" →
        (GetHttpLogRequestsByUrl lib c r s).2
          = (c.GetHttpLogRequestsByUrl (queryGet r.query "url") s).2 ∧
        (∀ e, (c.GetHttpLogRequestsByUrl (queryGet r.query "url") s).1.2 = some e →
          e.isNotFound = true →
          (GetHttpLogRequestsByUrl lib c r s).1.status = 404 ∧
          containsStr (GetHttpLogRequestsByUrl lib c r s).1.body "no logs found") ∧
        (∀ e, (c.GetHttpLogRequestsByUrl (queryGet r.query "url") s).1.2 = some e →
          e.isNotFound = false →
          (GetHttpLogRequestsByUrl lib c r s).1.status = 500) ∧
        ((c.GetHttpLogRequestsByUrl (queryGet r.query "url") s).1.2 = none →
          (GetHttpLogRequestsByUrl lib c r s).1.status = 200 ∧
          (GetHttpLogRequestsByUrl lib c r s).1.headerGet "Content-Type"
            = "application/json" ∧
          (GetHttpLogRequestsByUrl lib c r s).1.body
            = lib.encode (c.GetHttpLogRequestsByUrl (queryGet r.query "url") s).1.1))) ∧
    (((∀ kv ∈ r.query, kv.1 ≠ "username") →
        (GetHttpLogRequestsByUsername lib c r s).1.status = 400) ∧
      (queryGet r.query "username" = "" →
        (GetHttpLogRequestsByUsername lib c r s).1.status = 400 ∧
        (GetHttpLogRequestsByUsername lib c r s).2 = s) ∧
      (queryGet r.query "username" ≠ "" →
        (GetHttpLogRequestsByUsername lib c r s).2
          = (c.GetHttpLogRequestsByUsername (queryGet r.query "username") s).2 ∧
        (∀ e, (c.GetHttpLogRequestsByUsername (queryGet r.query "username") s).1.2 = some e →
          e.isNotFound = true →
          (GetHttpLogRequestsByUsername lib c r s).1.status = 404 ∧
          containsStr (GetHttpLogRequestsByUsername lib c r s).1.body "no logs found") ∧
        (∀ e, (c.GetHttpLogRequestsByUsername (queryGet r.query "username") s).1.2 = some e →
          e.isNotFound = false →
          (GetHttpLogRequestsByUsername lib c r s).1.status = 500) ∧
        ((c.GetHttpLogRequestsByUsername (queryGet r.query "username") s).1.2 = none →
          (GetHttpLogRequestsByUsername lib c r s).1.status = 200 ∧
          (GetHttpLogRequestsByUsername lib c r s).1.headerGet "Content-Type"
            = "application/json" ∧
          (GetHttpLogRequestsByUsername lib c r s).1.body
            = lib.encode
              (c.GetHttpLogRequestsByUsername (queryGet r.query "username") s).1.1))) := by
  constructor
  · have hempty : queryGet r.query "url" = "" →
        (GetHttpLogRequestsByUrl lib c r s).1.status = 400 ∧
        (GetHttpLogRequestsByUrl lib c r s).2 = s := by
      intro h
      simp [GetHttpLogRequestsByUrl, h, httpError]
    refine ⟨fun h => (hempty (queryGet_of_absent _ _ h)).1, hempty, ?_⟩
    intro hne
    unfold GetHttpLogRequestsByUrl
    simp only [hne, if_false]
    rcases hres : c.GetHttpLogRequestsByUrl (queryGet r.query "url") s with ⟨⟨rs, err⟩, s1⟩
    cases err with
    | none =>
      refine ⟨rfl, ?_, ?_, ?_⟩
      · intro e he; simp at he
      · intro e he; simp at he
      · intro _; exact ⟨rfl, rfl, rfl⟩
    | some e0 =>
      simp only
      by_cases hnf : e0.isNotFound = true
      · simp only [hnf, if_true]
        refine ⟨trivial, ?_, ?_, ?_⟩
        · intro e _ _
          exact ⟨rfl, containsStr_prefix _ _⟩
        · intro e he hf
          simp only [Option.some.injEq] at he
          subst he
          rw [hnf] at hf; simp at hf
        · intro h; simp at h
      · simp only [hnf]
        refine ⟨rfl, ?_, ?_, ?_⟩
        · intro e he ht
          simp only [Option.some.injEq] at he
          subst he
          exact absurd ht hnf
        · intro e _ _; rfl
        · intro h; simp at h
  · have hempty : queryGet r.query "username" = "" →
        (GetHttpLogRequestsByUsername lib c r s).1.status = 400 ∧
        (GetHttpLogRequestsByUsername lib c r s).2 = s := by
      intro h
      simp [GetHttpLogRequestsByUsername, h, httpError]
    refine ⟨fun h => (hempty (queryGet_of_absent _ _ h)).1, hempty, ?_⟩
    intro hne
    unfold GetHttpLogRequestsByUsername
    simp only [hne, if_false]
    rcases hres : c.GetHttpLogRequestsByUsername (queryGet r.query "username") s
      with ⟨⟨rs, err⟩, s1⟩
    cases err with
    | none =>
      refine ⟨rfl, ?_, ?_, ?_⟩
      · intro e he; simp at he
      · intro e he; simp at he
      · intro _; exact ⟨rfl, rfl, rfl⟩
    | some e0 =>
      simp only
      by_cases hnf : e0.isNotFound = true
      · simp only [hnf, if_true]
        refine ⟨trivial, ?_, ?_, ?_⟩
        · intro e _ _
          exact ⟨rfl, containsStr_prefix _ _⟩
        · intro e he hf
          simp only [Option.some.injEq] at he
          subst he
          rw [hnf] at hf; simp at hf
        · intro h; simp at h
      · simp only [hnf]
        refine ⟨rfl, ?_, ?_, ?_⟩
        · intro e he ht
          simp only [Option.some.injEq] at he
          subst he
          exact absurd ht hnf
        · intro e _ _; rfl
        · intro h; simp at h

end api

namespace api

open db

/-- C5 at the requests of routes_test.go: a list from the store gives 200
with the list encoded, `ErrNotFound` gives 404, no parameter gives 400. -/
theorem read_status_mapping_witness :
    GetHttpLogRequestsByUrl exampleLib (mockClient none ([sampleA], none))
        { query := [("url", "/a")], body := "" } []
      = (okJSON exampleLib [sampleA], [Call.getByUrl "/a"]) ∧
    (GetHttpLogRequestsByUrl exampleLib (mockClient none ([], some .ErrNotFound))
        { query := [("url", "/a")], body := "" } []).1.status = 404 ∧
    (GetHttpLogRequestsByUrl exampleLib (mockClient none ([sampleA], none))
        { query := [], body := "" } []).1.status = 400 :=
  ⟨by decide,
   ((read_status_mapping exampleLib (mockClient none ([], some .ErrNotFound))
      { query := [("url", "/a")], body := "" } []).1.2.2 (by decide)).2.1
      .ErrNotFound (by decide) (by decide) |>.1,
   (read_status_mapping exampleLib (mockClient none ([sampleA], none))
      { query := [], body := "" } []).1.1 (by simp)⟩

theorem decodeRequest_of_readValue_error (lib : JsonLib) (body e : String)
    (h : lib.readValue body = .error e) : decodeRequest lib body = .error e := by
  unfold decodeRequest; rw [h]

theorem decodeRequests_of_readValue_error (lib : JsonLib) (body e : String)
    (h : lib.readValue body = .error e) : decodeRequests lib body = .error e := by
  unfold decodeRequests; rw [h]

theorem insert_handler_of_error {σ : Type} (lib : JsonLib) (c : Client σ) (r : Request)
    (s : σ) (e : String) (h : decodeRequest lib r.body = .error e) :
    InsertHttpLogRequest lib c r s = (httpError ("internal server error: " ++ e) 400, s) := by
  unfold InsertHttpLogRequest; rw [h]

theorem insert_handler_of_ok {σ : Type} (lib : JsonLib) (c : Client σ) (r : Request)
    (s : σ) (request : HttpLogRequest) (h : decodeRequest lib r.body = .ok request) :
    InsertHttpLogRequest lib c r s =
      (match (c.InsertHttpLogRequest request s).1 with
        | some err => httpError ("failed to insert http log request: " ++ err.Error) 500
        | none => created,
       (c.InsertHttpLogRequest request s).2) := by
  unfold InsertHttpLogRequest; rw [h]
  simp only
  rcases c.InsertHttpLogRequest request s with ⟨err, s1⟩
  cases err <;> rfl

theorem bulk_handler_of_error {σ : Type} (lib : JsonLib) (c : Client σ) (r : Request)
    (s : σ) (e : String) (h : decodeRequests lib r.body = .error e) :
    BulkInsertHttpLogRequest lib c r s
      = (httpError ("internal server error: " ++ e) 400, s) := by
  unfold BulkInsertHttpLogRequest; rw [h]

theorem bulk_handler_of_ok {σ : Type} (lib : JsonLib) (c : Client σ) (r : Request)
    (s : σ) (requests : List HttpLogRequest) (h : decodeRequests lib r.body = .ok requests) :
    BulkInsertHttpLogRequest lib c r s =
      (match (c.BulkInsertHttpLogRequest requests s).1 with
        | some err => httpError ("failed to insert http log requests: " ++ err.Error) 500
        | none => created,
       (c.BulkInsertHttpLogRequest requests s).2) := by
  unfold BulkInsertHttpLogRequest; rw [h]
  simp only
  rcases c.BulkInsertHttpLogRequest requests s with ⟨err, s1⟩
  cases err <;> rfl

theorem containsStr_internal (e : String) (code : Nat) :
    containsStr (httpError ("internal server error: " ++ e) code).body
      "internal server error" := by
  refine ⟨"", ": " ++ e ++ "\n", ?_⟩
  rw [httpError_body]
  have : "internal server error: " = "internal server error" ++ ": " := by decide
  rw [this]
  simp only [String.append_assoc, String.empty_append]

/-- C6 (write endpoints, status mapping). For every request and every
client: when decoding the body fails (a JSON syntax error included) the
reply is 400 with a body containing "internal server error" and the store
is left untouched; when the body decodes, the store is called exactly once
with the decoded record (the decoded list for the bulk endpoint), and the
reply is 500 if that call returns an error and 201 with an empty body if it
returns none. -/
theorem write_status_mapping {σ : Type} (lib : JsonLib) (c : Client σ) (r : Request) (s : σ) :
    ((∀ e, lib.readValue r.body = .error e → decodeRequest lib r.body = .error e) ∧
      (∀ e, decodeRequest lib r.body = .error e →
        (InsertHttpLogRequest lib c r s).1.status = 400 ∧
        containsStr (InsertHttpLogRequest lib c r s).1.body "internal server error" ∧
        (InsertHttpLogRequest lib c r s).2 = s) ∧
      (∀ request, decodeRequest lib r.body = .ok request →
        (InsertHttpLogRequest lib c r s).2 = (c.InsertHttpLogRequest request s).2 ∧
        ((c.InsertHttpLogRequest request s).1 ≠ none →
          (InsertHttpLogRequest lib c r s).1.status = 500) ∧
        ((c.InsertHttpLogRequest request s).1 = none →
          (InsertHttpLogRequest lib c r s).1.status = 201 ∧
          (InsertHttpLogRequest lib c r s).1.body = ""))) ∧
    ((∀ e, lib.readValue r.body = .error e → decodeRequests lib r.body = .error e) ∧
      (∀ e, decodeRequests lib r.body = .error e →
        (BulkInsertHttpLogRequest lib c r s).1.status = 400 ∧
        containsStr (BulkInsertHttpLogRequest lib c r s).1.body "internal server error" ∧
        (BulkInsertHttpLogRequest lib c r s).2 = s) ∧
      (∀ requests, decodeRequests lib r.body = .ok requests →
        (BulkInsertHttpLogRequest lib c r s).2 = (c.BulkInsertHttpLogRequest requests s).2 ∧
        ((c.BulkInsertHttpLogRequest requests s).1 ≠ none →
          (BulkInsertHttpLogRequest lib c r s).1.status = 500) ∧
        ((c.BulkInsertHttpLogRequest requests s).1 = none →
          (BulkInsertHttpLogRequest lib c r s).1.status = 201 ∧
          (BulkInsertHttpLogRequest lib c r s).1.body = ""))) := by
  refine ⟨⟨decodeRequest_of_readValue_error lib r.body, ?_, ?_⟩,
    ⟨decodeRequests_of_readValue_error lib r.body, ?_, ?_⟩⟩
  · intro e he
    rw [insert_handler_of_error lib c r s e he]
    exact ⟨rfl, containsStr_internal e 400, rfl⟩
  · intro request hreq
    rw [insert_handler_of_ok lib c r s request hreq]
    refine ⟨rfl, ?_, ?_⟩
    · intro hne
      cases herr : (c.InsertHttpLogRequest request s).1 with
      | none => exact absurd herr hne
      | some err => rfl
    · intro hnone
      simp only [hnone]
      exact ⟨rfl, rfl⟩
  · intro e he
    rw [bulk_handler_of_error lib c r s e he]
    exact ⟨rfl, containsStr_internal e 400, rfl⟩
  · intro requests hreq
    rw [bulk_handler_of_ok lib c r s requests hreq]
    refine ⟨rfl, ?_, ?_⟩
    · intro hne
      cases herr : (c.BulkInsertHttpLogRequest requests s).1 with
      | none => exact absurd herr hne
      | some err => rfl
    · intro hnone
      simp only [hnone]
      exact ⟨rfl, rfl⟩

/-- C6 at the requests of routes_test.go: the body `(invalid json)` of the
tests gives 400 and no call, a body that decodes gives 201 and one call. -/
theorem write_status_mapping_witness :
    InsertHttpLogRequest exampleLib (mockClient none ([], none))
        { query := [], body := "\x7binvalid json\x7d" } []
      = (httpError "internal server error: invalid character" 400, []) ∧
    (InsertHttpLogRequest exampleLib (mockClient none ([], none))
        { query := [], body := "\x7b\x22id\x22: \x22a\x22\x7d" } []).2
      = [Call.insert { zeroRequest with ID := "a" }] ∧
    (InsertHttpLogRequest exampleLib (mockClient none ([], none))
        { query := [], body := "\x7b\x22id\x22: \x22a\x22\x7d" } []).1.status = 201 :=
  ⟨by decide,
   ((write_status_mapping exampleLib (mockClient none ([], none))
      { query := [], body := "\x7b\x22id\x22: \x22a\x22\x7d" } []).1.2.2
      { zeroRequest with ID := "a" } rfl).1.trans (by decide),
   (((write_status_mapping exampleLib (mockClient none ([], none))
      { query := [], body := "\x7b\x22id\x22: \x22a\x22\x7d" } []).1.2.2
      { zeroRequest with ID := "a" } rfl).2.2 (by decide)).1⟩

end api

namespace api

open db

/-- Storing a value into one field leaves every other field as it was. -/
theorem setField_other (lib : JsonLib) (r r1 : HttpLogRequest) (g f : Field) (v : JVal)
    (h : setField lib r g v = .ok r1) (hne : g ≠ f) : get r1 f = get r f := by
  cases g <;> simp only [setField] at h
  all_goals
    first
    | (cases hd : decodeString _ v with
        | error e => rw [hd] at h; simp [Except.map] at h
        | ok x =>
          rw [hd] at h
          simp only [Except.map, Except.ok.injEq] at h
          subst h
          cases f <;> first | rfl | exact absurd rfl hne)
    | (cases hd : decodeInt _ v with
        | error e => rw [hd] at h; simp [Except.map] at h
        | ok x =>
          rw [hd] at h
          simp only [Except.map, Except.ok.injEq] at h
          subst h
          cases f <;> first | rfl | exact absurd rfl hne)
    | (cases hd : decodeTime lib _ v with
        | error e => rw [hd] at h; simp [Except.map] at h
        | ok x =>
          rw [hd] at h
          simp only [Except.map, Except.ok.injEq] at h
          subst h
          cases f <;> first | rfl | exact absurd rfl hne)

/-- A field that no member of the object names keeps its value through the
decoding of the object. -/
theorem decodeMembers_absent (lib : JsonLib) (f : Field) (members : List (String × JVal)) :
    ∀ (r rec : HttpLogRequest), decodeMembers lib r members = .ok rec →
      (∀ kv ∈ members, lookupField lib kv.1 ≠ some f) → get rec f = get r f := by
  induction members with
  | nil =>
    intro r rec h _
    simp only [decodeMembers, Except.ok.injEq] at h
    rw [h]
  | cons kv rest ih =>
    intro r rec h habs
    obtain ⟨key, v⟩ := kv
    have hkey := habs (key, v) (List.mem_cons_self _ _)
    have hrest : ∀ kv ∈ rest, lookupField lib kv.1 ≠ some f :=
      fun x hx => habs x (List.mem_cons_of_mem _ hx)
    unfold decodeMembers at h
    cases hl : lookupField lib key with
    | none =>
      rw [hl] at h
      exact ih r rec h hrest
    | some g =>
      rw [hl] at h
      simp only at h
      cases hs : setField lib r g v with
      | error e => rw [hs] at h; simp at h
      | ok r1 =>
        rw [hs] at h
        simp only at h
        have hgf : g ≠ f := by
          intro hgf
          apply hkey
          simp only
          rw [hl, hgf]
        rw [ih r1 rec h hrest, setField_other lib r r1 g f v hs hgf]

/-- C9 as stated fails: the body is the empty JSON object, in which every
required field is absent; the handler answers 201 and has called the insert
of the store with the zero record (here on the mock, and on the Postgres
client, where a row with an empty id is written). -/
theorem required_fields_counterexample :
    exampleLib.readValue "\x7b\x7d" = .ok (.obj []) ∧
    decodeRequest exampleLib "\x7b\x7d" = .ok zeroRequest ∧
    InsertHttpLogRequest exampleLib (mockClient none ([], none))
        { query := [], body := "\x7b\x7d" } []
      = (created, [Call.insert zeroRequest]) ∧
    InsertHttpLogRequest exampleLib postgresClient { query := [], body := "\x7b\x7d" } []
      = (created, [toRow zeroRequest]) :=
  ⟨rfl, rfl, by decide, by decide⟩

/-- C9, amended (required fields are not validated). For a body that is a
JSON object: if its members decode, the handler does not reply 400; it
calls the insert of the store exactly once with the decoded record, in
which every field that no member names holds its zero value, and replies
201 or 500 as the store decides. It replies 400, leaving the store
untouched, only when a member that is present cannot be stored. -/
theorem absent_fields_take_zero_values {σ : Type} (lib : JsonLib) (c : Client σ)
    (r : Request) (s : σ) (members : List (String × JVal))
    (hbody : lib.readValue r.body = .ok (.obj members)) :
    (∀ rec, decodeMembers lib zeroRequest members = .ok rec →
      (∀ f, (∀ kv ∈ members, lookupField lib kv.1 ≠ some f) →
        get rec f = get zeroRequest f) ∧
      (InsertHttpLogRequest lib c r s).2 = (c.InsertHttpLogRequest rec s).2 ∧
      ((c.InsertHttpLogRequest rec s).1 = none →
        (InsertHttpLogRequest lib c r s).1.status = 201) ∧
      ((c.InsertHttpLogRequest rec s).1 ≠ none →
        (InsertHttpLogRequest lib c r s).1.status = 500)) ∧
    (∀ e, decodeMembers lib zeroRequest members = .error e →
      (InsertHttpLogRequest lib c r s).1.status = 400 ∧
      (InsertHttpLogRequest lib c r s).2 = s) := by
  have hdec : decodeRequest lib r.body = decodeMembers lib zeroRequest members := by
    unfold decodeRequest; rw [hbody]; rfl
  constructor
  · intro rec hrec
    rw [← hdec] at hrec
    refine ⟨fun f hf => decodeMembers_absent lib f members zeroRequest rec (hdec ▸ hrec) hf,
      ?_⟩
    rw [insert_handler_of_ok lib c r s rec hrec]
    refine ⟨rfl, ?_, ?_⟩
    · intro hnone
      simp only [hnone]
      rfl
    · intro hne
      cases herr : (c.InsertHttpLogRequest rec s).1 with
      | none => exact absurd herr hne
      | some err => rfl
  · intro e he
    rw [← hdec] at he
    rw [insert_handler_of_error lib c r s e he]
    exact ⟨rfl, rfl⟩

/-- C9 amended, at a body that names the id only: the other eleven fields
reach the store with their zero values. -/
theorem absent_fields_take_zero_values_witness :
    exampleLib.readValue "\x7b\x22id\x22: \x22a\x22\x7d" = .ok (.obj [("id", .str "a")]) ∧
    (InsertHttpLogRequest exampleLib (mockClient none ([], none))
        { query := [], body := "\x7b\x22id\x22: \x22a\x22\x7d" } []).2
      = [Call.insert { zeroRequest with ID := "a" }] ∧
    get { zeroRequest with ID := "a" } Field.URL = GoValue.str "" :=
  ⟨rfl,
   ((absent_fields_take_zero_values exampleLib (mockClient none ([], none))
      { query := [], body := "\x7b\x22id\x22: \x22a\x22\x7d" } []
      [("id", .str "a")] rfl).1 { zeroRequest with ID := "a" } rfl).2.1.trans (by decide),
   ((absent_fields_take_zero_values exampleLib (mockClient none ([], none))
      { query := [], body := "\x7b\x22id\x22: \x22a\x22\x7d" } []
      [("id", .str "a")] rfl).1 { zeroRequest with ID := "a" } rfl).1 Field.URL
      (by decide)⟩

/-- C10 (no empty filter reaches the store). When the parameter is absent,
or its first value is empty, each read handler replies 400 and leaves the
store untouched, whatever the client; and in every case, either the
handler replied 400 without a call, or it called the store once with a
filter that is not the empty string. -/
theorem read_handlers_reject_empty_filter {σ : Type} (lib : JsonLib) (c : Client σ)
    (r : Request) (s : σ) :
    ((((∀ kv ∈ r.query, kv.1 ≠ "url") ∨
        (∃ pre rest, r.query = pre ++ ("url", "") :: rest ∧ ∀ kv ∈ pre, kv.1 ≠ "url")) →
        (GetHttpLogRequestsByUrl lib c r s).1.status = 400 ∧
        (GetHttpLogRequestsByUrl lib c r s).2 = s) ∧
      (((GetHttpLogRequestsByUrl lib c r s).1.status = 400 ∧
          (GetHttpLogRequestsByUrl lib c r s).2 = s) ∨
        (queryGet r.query "url" ≠ "" ∧
          (GetHttpLogRequestsByUrl lib c r s).2
            = (c.GetHttpLogRequestsByUrl (queryGet r.query "url") s).2))) ∧
    ((((∀ kv ∈ r.query, kv.1 ≠ "username") ∨
        (∃ pre rest, r.query = pre ++ ("username", "") :: rest ∧
          ∀ kv ∈ pre, kv.1 ≠ "username")) →
        (GetHttpLogRequestsByUsername lib c r s).1.status = 400 ∧
        (GetHttpLogRequestsByUsername lib c r s).2 = s) ∧
      (((GetHttpLogRequestsByUsername lib c r s).1.status = 400 ∧
          (GetHttpLogRequestsByUsername lib c r s).2 = s) ∨
        (queryGet r.query "username" ≠ "" ∧
          (GetHttpLogRequestsByUsername lib c r s).2
            = (c.GetHttpLogRequestsByUsername (queryGet r.query "username") s).2))) := by
  have hget : ∀ key : String,
      ((∀ kv ∈ r.query, kv.1 ≠ key) ∨
        (∃ pre rest, r.query = pre ++ (key, "") :: rest ∧ ∀ kv ∈ pre, kv.1 ≠ key)) →
      queryGet r.query key = "" := by
    intro key h
    rcases h with h | ⟨pre, rest, hq, hpre⟩
    · exact queryGet_of_absent _ _ h
    · rw [hq]; exact queryGet_of_first pre rest key "" hpre
  have hurl : queryGet r.query "url" = "" →
      (GetHttpLogRequestsByUrl lib c r s).1.status = 400 ∧
      (GetHttpLogRequestsByUrl lib c r s).2 = s := by
    intro h
    simp [GetHttpLogRequestsByUrl, h, httpError]
  have huser : queryGet r.query "username" = "" →
      (GetHttpLogRequestsByUsername lib c r s).1.status = 400 ∧
      (GetHttpLogRequestsByUsername lib c r s).2 = s := by
    intro h
    simp [GetHttpLogRequestsByUsername, h, httpError]
  refine ⟨⟨fun h => hurl (hget "url" h), ?_⟩, ⟨fun h => huser (hget "username" h), ?_⟩⟩
  · by_cases h : queryGet r.query "url" = ""
    · exact Or.inl (hurl h)
    · exact Or.inr ⟨h, ((get_url_handler_state lib c r s) h)⟩
  · by_cases h : queryGet r.query "username" = ""
    · exact Or.inl (huser h)
    · exact Or.inr ⟨h, ((get_username_handler_state lib c r s) h)⟩

/-- C10 at the request `?url=` on the mock: 400 and no call recorded. -/
theorem read_handlers_reject_empty_filter_witness :
    GetHttpLogRequestsByUrl exampleLib (mockClient none ([sampleA], none))
        { query := [("url", "")], body := "" } []
      = (httpError "missing \x27url\x27 query parameter" 400, []) ∧
    (GetHttpLogRequestsByUsername exampleLib (mockClient none ([sampleA], none))
        { query := [("url", "/a")], body := "" } []).2 = [] :=
  ⟨by decide,
   ((read_handlers_reject_empty_filter exampleLib (mockClient none ([sampleA], none))
      { query := [("url", "/a")], body := "" } []).2.1 (Or.inl (by decide))).2⟩

end api
